import Mathlib

/-!
Verification of the CRMint orchestration core (`backends/core/models.py`).

The development shallowly embeds the `Pipeline` / `Job` / `Param` /
`StartCondition` model layer:

* the parameter-value resolver (`Param._expand_vars`, `Param.val`,
  `_parse_num`) over explicit character lists, including the
  `{%.+?%}` inline-expression scan, the namespace construction with
  global / pipeline scoping, and the restricted expression evaluator
  (the external `simpleeval` library, modelled on the expression forms
  the code exercises: integer literals, identifier lookup and `+`);
* the Pipeline/Job state machines (`start`, `stop`, `start_single_job`,
  `job_finished`, `_finish`, `get_ready`, `start`, `run`, `stop`,
  `enqueue`, `worker_succeeded`, `worker_failed`,
  `_start_dependent_jobs`) as explicit state-passing functions with an
  exception channel; ghost fields record the calls to
  `_start_dependent_jobs`, `job_finished` and the notification mailer.

Statuses are kept as strings, exactly as the source compares them.
Timestamps (`status_changed_at`) and the task-queue payload carry no
information relevant to the verified properties and are not modelled.
-/

namespace Crmint

/-! ## Values

Python values that `Param.val` can produce.  Floats are represented by
the exact rational value of the parsed decimal literal; every literal
appearing in the claims ("3.5") is exactly representable in binary
floating point, so the identification is faithful on the inputs that
matter. -/

inductive PVal where
  | int (n : Int)
  | float (q : Rat)
  | bool (b : Bool)
  | str (s : String)
  | list (l : List PVal)

/-- Python `str(result)` as used by `_expand_vars` when splicing an
expression result back into the surrounding text.  The claims exercise
only the `int`, `bool` and `str` cases; the decimal rendering of floats
and the rendering of lists are not exercised and are given simple total
stand-ins. -/
def pvalStr : PVal → String
  | .int n => toString n
  | .bool b => if b then "True" else "False"
  | .str s => s
  | .float q => toString q
  | .list _ => "[]"

/-- Errors raised during parameter resolution.  `Job.get_ready` catches
exactly `(InvalidExpression, TypeError)`; both are represented here.
A dangling `job_id` / missing pipeline row would raise `AttributeError`
in Python; that situation is mapped to `typeError` (it is unreachable in
every configuration considered by the claims, whose foreign keys
resolve). -/
inductive ResErr where
  | invalidExpression
  | typeError
deriving DecidableEq

/-! ## The restricted expression evaluator (`simpleeval.simple_eval`)

The source evaluates the text inside a `\x7b% ... %\x7d` span with the
external `simpleeval` library over a passed-in `names` namespace.  The
library is modelled on the fragment the repository's data exercises:
integer literals, identifier lookup in `names` (raising
`NameNotDefined`, an `InvalidExpression`, when absent), and `+` on
integers (raising a `TypeError`-like error on other operand types).
Any other syntax is modelled as `InvalidExpression`.  The whitelisted
helper functions of `core.inline` are not called by any expression in
the claims and are not modelled. -/

inductive SETok where
  | num (n : Nat)
  | ident (s : String)
  | plus
deriving DecidableEq

def digitsToNat (ds : List Char) : Nat :=
  ds.foldl (fun n c => n * 10 + (c.toNat - '0'.toNat)) 0

def isIdentStart (c : Char) : Bool := c.isAlpha || c = '_'

def isIdentChar (c : Char) : Bool := c.isAlphanum || c = '_'

/-- Tokenizer for the modelled expression fragment, fuel-indexed so
that it is structurally recursive (every recursive call consumes a
strictly shorter text and one unit of fuel, so fuel `length + 1` never
runs out). -/
def lexSEF : Nat → List Char → Option (List SETok)
  | 0, _ => none
  | _ + 1, [] => some []
  | fuel + 1, c :: cs =>
    if c.isWhitespace then lexSEF fuel cs
    else if c = '+' then (lexSEF fuel cs).map (SETok.plus :: ·)
    else if c.isDigit then
      (lexSEF fuel (cs.dropWhile Char.isDigit)).map
        (SETok.num (digitsToNat (c :: cs.takeWhile Char.isDigit)) :: ·)
    else if isIdentStart c then
      (lexSEF fuel (cs.dropWhile isIdentChar)).map
        (SETok.ident ⟨c :: cs.takeWhile isIdentChar⟩ :: ·)
    else none

def lexSE (l : List Char) : Option (List SETok) := lexSEF (l.length + 1) l

/-- Namespace lookup: the `names` dict is represented as an association
list in which a later insertion is consed at the front, so the first
match is the value the dict holds. -/
def lookupName (ns : List (String × PVal)) (x : String) : Option PVal :=
  (ns.find? (fun e => e.1 == x)).map (·.2)

def evalAtom (ns : List (String × PVal)) : SETok → Except ResErr PVal
  | .num n => .ok (.int n)
  | .ident x =>
    match lookupName ns x with
    | some v => .ok v
    | none => .error .invalidExpression
  | .plus => .error .invalidExpression

/-- Left-to-right evaluation of `+ atom + atom ...` continuing an
integer accumulator. -/
def evalSum (ns : List (String × PVal)) (acc : Int) :
    List SETok → Except ResErr PVal
  | [] => .ok (.int acc)
  | .plus :: t :: rest =>
    match evalAtom ns t with
    | .error e => .error e
    | .ok (.int m) => evalSum ns (acc + m) rest
    | .ok _ => .error .typeError
  | _ => .error .invalidExpression

def simpleEval (s : List Char) (ns : List (String × PVal)) :
    Except ResErr PVal :=
  match lexSE s with
  | none => .error .invalidExpression
  | some [] => .error .invalidExpression
  | some (t :: rest) =>
    match evalAtom ns t with
    | .error e => .error e
    | .ok v =>
      match rest with
      | [] => .ok v
      | _ =>
        match v with
        | .int m => evalSum ns m rest
        | _ => .error .typeError

/-! ## The inline-span scan (`re.compile(r'\x7b%.+?%\x7d').findall`)

`findClose cs` consumes the text after an opening `\x7b%` and returns
the shortest nonempty newline-free body followed by `%\x7d`, together
with the remaining text — precisely the lazy `.+?` semantics (`.` does
not match a newline). -/

/-- Does the text start with the closing delimiter `%\x7d`? -/
def isClose : List Char → Bool
  | '%' :: '}' :: _ => true
  | _ => false

def findClose : List Char → Option (List Char × List Char)
  | [] => none
  | c :: rest =>
    if c = '\n' then none
    else if isClose rest then some ([c], rest.drop 2)
    else (findClose rest).map (fun p => (c :: p.1, p.2))

/-- All matches of `\x7b%.+?%\x7d` in scan order, non-overlapping, each
returned with its delimiters, as `findall` returns them.  Fuel-indexed
for structural recursion: every recursive call consumes a strictly
shorter text (a successful close leaves a strict suffix), so fuel
`length + 1` never runs out. -/
def findInlinersF : Nat → List Char → List (List Char)
  | 0, _ => []
  | _ + 1, [] => []
  | fuel + 1, '{' :: '%' :: cs =>
    match findClose cs with
    | some (b, rs) => ('{' :: '%' :: (b ++ ['%', '}'])) :: findInlinersF fuel rs
    | none => findInlinersF fuel ('%' :: cs)
  | fuel + 1, _ :: cs => findInlinersF fuel cs

def findInliners (l : List Char) : List (List Char) :=
  findInlinersF (l.length + 1) l

/-- Python `str.replace(old, new)`: replace every occurrence, scanning
left to right without overlap.  All patterns fed to it here are inline
spans, which are nonempty, so each replacement consumes at least one
character and fuel `length + 1` never runs out. -/
def replaceAllF : Nat → List Char → List Char → List Char → List Char
  | 0, s, _, _ => s
  | _ + 1, [], _, _ => []
  | fuel + 1, c :: cs, pat, sub =>
    if pat ≠ [] ∧ pat.isPrefixOf (c :: cs) then
      sub ++ replaceAllF fuel ((c :: cs).drop pat.length) pat sub
    else
      c :: replaceAllF fuel cs pat sub

def replaceAll (s pat sub : List Char) : List Char :=
  replaceAllF (s.length + 1) s pat sub

/-- The span body: `inliner[2:-2]`. -/
def stripDelims (l : List Char) : List Char :=
  ((l.drop 2).dropLast).dropLast

/-- The replacement loop of `_expand_vars`: all spans are collected
from the original text first, then each is evaluated and spliced in
turn. -/
def expandLoop (ns : List (String × PVal)) :
    List (List Char) → List Char → Except ResErr (List Char)
  | [], v => .ok v
  | inl :: rest, v =>
    match simpleEval (stripDelims inl) ns with
    | .error e => .error e
    | .ok r => expandLoop ns rest (replaceAll v inl (pvalStr r).data)

def expandSpans (ns : List (String × PVal)) (v : List Char) :
    Except ResErr (List Char) :=
  expandLoop ns (findInliners v) v

/-! ## Numeric coercion (`_parse_num`) -/

def stripWs (l : List Char) : List Char :=
  ((l.dropWhile Char.isWhitespace).reverse.dropWhile Char.isWhitespace).reverse

def parseDigits (ds : List Char) : Option Nat :=
  if ds ≠ [] ∧ ds.all Char.isDigit then some (digitsToNat ds) else none

/-- Python 2 `int(s)`: optional surrounding whitespace, optional sign,
one or more decimal digits. -/
def parseIntPy (l : List Char) : Option Int :=
  match stripWs l with
  | '+' :: ds => (parseDigits ds).map Int.ofNat
  | '-' :: ds => (parseDigits ds).map (fun n => -(n : Int))
  | ds => (parseDigits ds).map Int.ofNat

/-- Mantissa forms `D+`, `D+.D*`, `.D+`, returned as an exact
numerator/denominator pair (kept in integer arithmetic so that values
compute by kernel reduction). -/
def parseMantissa (l : List Char) : Option (Nat × Nat) :=
  let ip := l.takeWhile Char.isDigit
  let rest := l.dropWhile Char.isDigit
  match rest with
  | [] => if ip ≠ [] then some (digitsToNat ip, 1) else none
  | '.' :: fp =>
    if fp.all Char.isDigit ∧ (ip ≠ [] ∨ fp ≠ []) then
      some (digitsToNat ip * 10 ^ fp.length + digitsToNat fp, 10 ^ fp.length)
    else none
  | _ => none

/-- Python `float(s)` on the decimal forms: optional sign, mantissa,
optional exponent.  (`inf` / `nan` are not modelled; no stored value in
the claims takes those forms.)  The result is the exact rational value
of the literal. -/
def parseFloatPy (l : List Char) : Option Rat :=
  let t := stripWs l
  let (neg, t1) : (Bool × List Char) :=
    match t with
    | '+' :: r => (false, r)
    | '-' :: r => (true, r)
    | r => (false, r)
  let sgn : Int := if neg then -1 else 1
  let mantPart := t1.takeWhile (fun c => c ≠ 'e' ∧ c ≠ 'E')
  let expPart := t1.dropWhile (fun c => c ≠ 'e' ∧ c ≠ 'E')
  match parseMantissa mantPart with
  | none => none
  | some (mn, md) =>
    match expPart with
    | [] => some (mkRat (sgn * mn) md)
    | _ :: er =>
      let (eneg, ed) : (Bool × List Char) :=
        match er with
        | '+' :: r => (false, r)
        | '-' :: r => (true, r)
        | r => (false, r)
      match parseDigits ed with
      | some e =>
        some (if eneg then mkRat (sgn * mn) (md * 10 ^ e)
          else mkRat (sgn * (mn * 10 ^ e)) md)
      | none => none

/-- `_parse_num`: try `int`, then `float`, else `0`.  (The `TODO` in
the source notes the silent `0` fallback; it is the implemented
behavior and is modelled as such.) -/
def parseNumL (l : List Char) : PVal :=
  match parseIntPy l with
  | some n => .int n
  | none =>
    match parseFloatPy l with
    | some q => .float q
    | none => .int 0

/-! ## Params and the namespace construction -/

/-- A `Param` row.  `type` is the raw string column, compared literally
as the source does; exactly one of `pipeline_id` / `job_id` is set for
scoped params, neither for global params. -/
structure Param where
  name : String
  type : String
  pipeline_id : Option Nat := none
  job_id : Option Nat := none
  value : String

/-- The slice of the database that `Param.val` reads: all `Param` rows
plus the `jobs` rows' foreign keys (`Param.job.pipeline` is reached
through `job_id → pipeline_id`). -/
structure ParamDb where
  params : List Param
  jobs : List (Nat × Nat)

/-- `Param.where(pipeline_id=None, job_id=None).all()` in table order. -/
def globalParams (db : ParamDb) : List Param :=
  db.params.filter (fun p => p.pipeline_id.isNone && p.job_id.isNone)

def insertByName (p : Param) : List Param → List Param
  | [] => [p]
  | q :: qs => if p.name ≤ q.name then p :: q :: qs else q :: insertByName p qs

/-- `order_by='asc(Param.name)'` on the pipeline's `params`
relationship. -/
def sortByName : List Param → List Param
  | [] => []
  | p :: ps => insertByName p (sortByName ps)

/-- `self.job.pipeline.params`: the params rows carrying the job's
pipeline id, in the relationship's name order. -/
def pipelineParams (db : ParamDb) (pid : Nat) : List Param :=
  sortByName (db.params.filter (fun q => q.pipeline_id == some pid))

def baseNames : List (String × PVal) :=
  [("True", PVal.bool true), ("False", PVal.bool false)]

/-- Python `val.split('\n')`. -/
def splitNl : List Char → List (List Char)
  | [] => [[]]
  | c :: cs =>
    if c = '\n' then [] :: splitNl cs
    else
      match splitNl cs with
      | [] => [[c]]
      | hd :: tl => (c :: hd) :: tl

mutual

/-- `Param.val`: boolean params compare the stored value to `'1'`
without expansion; all other types expand the inline spans and then
coerce by type, falling through to the expanded string.  Every call in
the group consumes one unit of fuel, so the group is structurally
recursive and computes by kernel reduction; the exported entry point
passes `valFuel`, which exceeds the deepest possible chain (scope
stratification bounds the `val`-recursion depth at three, and each
namespace walks at most all params), so the fuel-0 fallbacks are never
reached from it on any database. -/
def paramVal : Nat → ParamDb → Param → Except ResErr PVal
  | 0, _, _ => .error .typeError
  | fuel + 1, db, p =>
    if p.type = "boolean" then .ok (.bool (p.value == "1"))
    else
      match namesFor fuel db p with
      | .error e => .error e
      | .ok ns =>
        match expandSpans ns p.value.data with
        | .error e => .error e
        | .ok v =>
          if p.type = "number" then .ok (parseNumL v)
          else if p.type = "string_list" then
            .ok (.list ((splitNl v).map (fun s => .str ⟨s⟩)))
          else if p.type = "number_list" then
            .ok (.list (((splitNl v).filter
              (fun s => s.any (fun c => !c.isWhitespace))).map parseNumL))
          else .ok (.str ⟨v⟩)
termination_by structural fuel => fuel

/-- Fold `names[param.name] = param.val` over a param list; a later
entry is consed in front and therefore shadows an earlier one, exactly
as the dict assignment overwrites. -/
def addParams : Nat → ParamDb → List Param → List (String × PVal) →
    Except ResErr (List (String × PVal))
  | 0, _, _, _ => .error .typeError
  | _ + 1, _, [], ns => .ok ns
  | fuel + 1, db, q :: qs, ns =>
    match paramVal fuel db q with
    | .error e => .error e
    | .ok v => addParams fuel db qs ((q.name, v) :: ns)
termination_by structural fuel => fuel

/-- The namespace of `_expand_vars`: the `True`/`False` constants, then
(for any scoped param) every global param's value, then (for a
job-scoped param) every param of the job's owning pipeline, pipeline
scope shadowing global scope. -/
def namesFor : Nat → ParamDb → Param → Except ResErr (List (String × PVal))
  | 0, _, _ => .error .typeError
  | fuel + 1, db, p =>
    match
      (if p.job_id.isSome || p.pipeline_id.isSome then
        addParams fuel db (globalParams db) baseNames
      else .ok baseNames) with
    | .error e => .error e
    | .ok ns1 =>
      match p.job_id with
      | none => .ok ns1
      | some j =>
        match db.jobs.find? (fun e => e.1 == j) with
        | none => .error .typeError
        | some jr => addParams fuel db (pipelineParams db jr.2) ns1
termination_by structural fuel => fuel

end

/-- Fuel exceeding the deepest `val` chain on database `db`. -/
def valFuel (db : ParamDb) : Nat := 2 * db.params.length + 8

/-- The `val` property with sufficient fuel. -/
def Param.val (db : ParamDb) (p : Param) : Except ResErr PVal :=
  paramVal (valFuel db) db p

/-- The namespace that `Param.val` builds for `p` (the `names` dict of
`_expand_vars` at `val`'s fuel). -/
def valNames (db : ParamDb) (p : Param) :
    Except ResErr (List (String × PVal)) :=
  namesFor (2 * db.params.length + 7) db p

/-- One-step unfolding of `Param.val` through `valNames`. -/
theorem val_unfold (db : ParamDb) (p : Param) :
    Param.val db p =
      (if p.type = "boolean" then .ok (.bool (p.value == "1"))
      else
        match valNames db p with
        | .error e => .error e
        | .ok ns =>
          match expandSpans ns p.value.data with
          | .error e => .error e
          | .ok v =>
            if p.type = "number" then .ok (parseNumL v)
            else if p.type = "string_list" then
              .ok (.list ((splitNl v).map (fun s => .str ⟨s⟩)))
            else if p.type = "number_list" then
              .ok (.list (((splitNl v).filter
                (fun s => s.any (fun c => !c.isWhitespace))).map parseNumL))
            else .ok (.str ⟨v⟩)) := by
  have hv : valFuel db = (2 * db.params.length + 7) + 1 := by
    unfold valFuel; omega
  unfold Param.val valNames
  rw [hv]
  rfl

/-- For a global-scope param (neither owner id set) the namespace is
just the two constants. -/
theorem valNames_global (db : ParamDb) (p : Param) (h1 : p.pipeline_id = none)
    (h2 : p.job_id = none) : valNames db p = .ok baseNames := by
  have hv : 2 * db.params.length + 7 = (2 * db.params.length + 6) + 1 := by omega
  unfold valNames
  rw [hv]
  simp [namesFor, h1, h2]

/-! ## The Pipeline/Job state machine

One pipeline and its jobs.  Job and pipeline statuses are the literal
strings the source assigns and compares.  The `status_changed_at`
timestamps and the task-queue payload are not modelled.  Three ghost
fields instrument the state: `sdjLog` records each entry into
`_start_dependent_jobs`, `jfCount` counts `job_finished` calls, and
`notifCount` counts `NotificationMailer().finished_pipeline` calls. -/

/-- A Job row's mutable columns. -/
structure JobState where
  status : String
  enqueued : Nat
  succeededW : Nat
  failedW : Nat
deriving DecidableEq

/-- A StartCondition row: an edge `preceding_job → job` carrying a
condition string. -/
structure SCond where
  job_id : Nat
  preceding_job_id : Nat
  condition : String
deriving DecidableEq

/-- The static rows: the pipeline's id, its jobs' ids in table order,
all StartCondition rows and all Param rows. -/
structure Config where
  pipelineId : Nat
  jobIds : List Nat
  conds : List SCond
  params : List Param

def Config.db (cfg : Config) : ParamDb :=
  ⟨cfg.params, cfg.jobIds.map (fun j => (j, cfg.pipelineId))⟩

/-- The `params` relationship on a Job. -/
def jobScopedParams (cfg : Config) (j : Nat) : List Param :=
  cfg.params.filter (fun p => p.job_id == some j)

/-- Whether iterating `param.val` over the job's params raises no
resolution error (the loop in `get_ready`, and the `worker_params`
dict built in `run`, fail or succeed together since `val` is
deterministic and the rows are fixed). -/
def resolveOk (cfg : Config) (j : Nat) : Bool :=
  (jobScopedParams cfg j).all (fun p =>
    match Param.val cfg.db p with
    | .ok _ => true
    | .error _ => false)

/-- The mutable state plus ghost instrumentation. -/
structure St where
  pstatus : String
  jobs : List (Nat × JobState)
  sdjLog : List Nat
  jfCount : Nat
  notifCount : Nat
deriving DecidableEq

/-- Result of an operation: normal return carrying a value, or a
Python exception propagating out; both carry the state as mutated so
far. -/
inductive Out (α : Type) where
  | ok (st : St) (v : α)
  | exn (st : St)
deriving DecidableEq

def Out.state {α : Type} : Out α → St
  | .ok st _ => st
  | .exn st => st

def lookupJob (st : St) (j : Nat) : Option JobState :=
  (st.jobs.find? (fun e => e.1 == j)).map (·.2)

def updJob (st : St) (j : Nat) (f : JobState → JobState) : St :=
  { st with jobs := st.jobs.map (fun e => if e.1 == j then (e.1, f e.2) else e) }

def setStatus (st : St) (j : Nat) (s : String) : St :=
  updJob st j (fun js => { js with status := s })

/-- `Job.get_ready`: valid only from idle/succeeded/failed; resolving
any param raises `(InvalidExpression, TypeError)`, which is caught,
logged and converted to `False`; on success the status becomes
`waiting`. -/
def getReady (cfg : Config) (st : St) (j : Nat) : St × Bool :=
  match lookupJob st j with
  | none => (st, false)
  | some js =>
    if js.status ∈ ["idle", "succeeded", "failed"] then
      if resolveOk cfg j then (setStatus st j "waiting", true)
      else (st, false)
    else (st, false)

/-- `Job.enqueue`: only while `running`; a successful task submission
increments `enqueued_workers_count`. -/
def enqueue (st : St) (j : Nat) : St × Bool :=
  match lookupJob st j with
  | none => (st, false)
  | some js =>
    if js.status = "running" then
      (updJob st j (fun k => { k with enqueued := k.enqueued + 1 }), true)
    else (st, false)

/-- `Job.run`: reset the three counters, set `running`, build the
worker-params dict (a resolution error raises out of `run`), then
enqueue the first worker. -/
def jobRun (cfg : Config) (st : St) (j : Nat) : Out Unit :=
  let st1 := updJob st j (fun js =>
    { js with enqueued := 0, succeededW := 0, failedW := 0, status := "running" })
  if resolveOk cfg j then .ok (enqueue st1 j).1 ()
  else .exn st1

/-- `Job.stop`: `waiting → failed`, `running → stopping`, otherwise a
no-op returning `False`. -/
def stopJob (st : St) (j : Nat) : St × Bool :=
  match lookupJob st j with
  | none => (st, false)
  | some js =>
    if js.status = "waiting" then (setStatus st j "failed", true)
    else if js.status = "running" then (setStatus st j "stopping", true)
    else (st, false)

/-- `Pipeline._finish`: the outer join on
`Job.id == StartCondition.preceding_job_id` filtered with
`StartCondition.preceding_job_id == None` keeps exactly the pipeline's
jobs that are the preceding job of no StartCondition row — the jobs
with no outgoing edge.  The pipeline fails iff one of those failed,
and the finished-pipeline notification is sent. -/
def finishP (cfg : Config) (st : St) : St :=
  let noOutgoing := st.jobs.filter
    (fun e => !(cfg.conds.any (fun c => c.preceding_job_id == e.1)))
  let s := if noOutgoing.any (fun e => e.2.status == "failed")
    then "failed" else "succeeded"
  { st with pstatus := s, notifCount := st.notifCount + 1 }

/-- `Pipeline.job_finished`: finalize iff every job is
succeeded/failed/idle. -/
def jobFinished (cfg : Config) (st : St) : St × Bool :=
  let st0 := { st with jfCount := st.jfCount + 1 }
  if st0.jobs.all (fun e => e.2.status ∈ ["succeeded", "failed", "idle"]) then
    (finishP cfg st0, true)
  else (st0, false)

mutual

/-- `Job.start` (fuel-indexed): from `waiting`, evaluate the incoming
start conditions in order.  Every recursive call in the cascade
consumes one unit of fuel, so the group is structurally recursive and
computes by kernel reduction; the exported entry points pass
`cascadeFuel`, which exceeds the deepest possible call chain (each
nested hard-fail permanently removes one job from `waiting`), so the
fuel-0 fallbacks are never reached from them. -/
def startF : Nat → Config → St → Nat → Out Bool
  | 0, _, st, _ => .ok st false
  | fuel + 1, cfg, st, j =>
    match lookupJob st j with
    | none => .ok st false
    | some js =>
      if js.status = "waiting" then
        condLoop fuel cfg st j (cfg.conds.filter (fun c => c.job_id == j))
      else .ok st false
termination_by structural fuel => fuel

/-- The `for start_condition in self.start_conditions` loop of
`Job.start`: a `success` (resp. `fail`) edge whose predecessor has the
contradicting terminal status hard-fails the job and cascades before
returning `False`; any other unsatisfied edge returns `False` with the
state unchanged; a condition string other than the three known ones
falls through every branch; when no edge blocks, `run` is called.
Reading the status of a dangling `preceding_job` raises
(`AttributeError` on `None`). -/
def condLoop : Nat → Config → St → Nat → List SCond → Out Bool
  | 0, _, st, _, _ => .ok st false
  | fuel + 1, cfg, st, j, conds =>
    match conds with
    | [] =>
      match jobRun cfg st j with
      | .exn st' => .exn st'
      | .ok st' _ => .ok st' true
    | c :: rest =>
      match (lookupJob st c.preceding_job_id).map (·.status) with
      | none => .exn st
      | some ps =>
        if c.condition = "success" then
          if ps ≠ "succeeded" then
            if ps = "failed" then
              match sdjF fuel cfg (setStatus st j "failed") j with
              | .exn st' => .exn st'
              | .ok st' _ => .ok st' false
            else .ok st false
          else condLoop fuel cfg st j rest
        else if c.condition = "fail" then
          if ps ≠ "failed" then
            if ps = "succeeded" then
              match sdjF fuel cfg (setStatus st j "failed") j with
              | .exn st' => .exn st'
              | .ok st' _ => .ok st' false
            else .ok st false
          else condLoop fuel cfg st j rest
        else if c.condition = "whatever" then
          if ps ∉ ["succeeded", "failed"] then .ok st false
          else condLoop fuel cfg st j rest
        else condLoop fuel cfg st j rest
termination_by structural fuel => fuel

/-- `Job._start_dependent_jobs`: start every dependent job (the rows
joining an outgoing StartCondition back to the jobs table, so a
dangling `job_id` contributes nothing), then notify the owning
pipeline through `job_finished`.  The ghost log records the entry. -/
def sdjF : Nat → Config → St → Nat → Out Unit
  | 0, _, st, _ => .ok st ()
  | fuel + 1, cfg, st, j =>
    let st0 := { st with sdjLog := st.sdjLog ++ [j] }
    let deps := ((cfg.conds.filter (fun c => c.preceding_job_id == j)).map
      (fun c => c.job_id)).filter (fun d => (lookupJob st0 d).isSome)
    match startListF fuel cfg st0 deps with
    | .exn st' => .exn st'
    | .ok st' _ => .ok (jobFinished cfg st').1 ()
termination_by structural fuel => fuel

def startListF : Nat → Config → St → List Nat → Out Unit
  | 0, _, st, _ => .ok st ()
  | fuel + 1, cfg, st, ds =>
    match ds with
    | [] => .ok st ()
    | d :: rest =>
      match startF fuel cfg st d with
      | .exn st' => .exn st'
      | .ok st' _ => startListF fuel cfg st' rest
termination_by structural fuel => fuel

end

/-- Fuel exceeding the deepest possible call chain of a cascade: the
chain alternates `startF` levels (at most one per job, plus one) with
walks over at most all conditions of the configuration. -/
def cascadeFuel (cfg : Config) (st : St) : Nat :=
  (st.jobs.length + 2) * (2 * cfg.conds.length + 4)

/-- `Job.start` with cascade-sufficient fuel. -/
def startJob (cfg : Config) (st : St) (j : Nat) : Out Bool :=
  startF (cascadeFuel cfg st) cfg st j

/-- `Job.worker_succeeded`: increment the success counter; when the
finished count reaches the enqueued count, finalize (`succeeded` iff
no worker failed) and cascade. -/
def workerSucceeded (cfg : Config) (st : St) (j : Nat) : Out Unit :=
  match lookupJob st j with
  | none => .exn st
  | some js =>
    let st1 := updJob st j (fun k => { k with succeededW := k.succeededW + 1 })
    if js.succeededW + 1 + js.failedW ≥ js.enqueued then
      let st2 := setStatus st1 j (if js.failedW < 1 then "succeeded" else "failed")
      sdjF (cascadeFuel cfg st2) cfg st2 j
    else .ok st1 ()

/-- `Job.worker_failed`: increment the failure counter; when the
finished count reaches the enqueued count, finalize as `failed` and
cascade. -/
def workerFailed (cfg : Config) (st : St) (j : Nat) : Out Unit :=
  match lookupJob st j with
  | none => .exn st
  | some js =>
    let st1 := updJob st j (fun k => { k with failedW := k.failedW + 1 })
    if js.succeededW + (js.failedW + 1) ≥ js.enqueued then
      let st2 := setStatus st1 j "failed"
      sdjF (cascadeFuel cfg st2) cfg st2 j
    else .ok st1 ()

def getReadyLoop (cfg : Config) : St → List Nat → St × Bool
  | st, [] => (st, true)
  | st, j :: js =>
    match getReady cfg st j with
    | (st', true) => getReadyLoop cfg st' js
    | (st', false) => (st', false)

def startLoop (cfg : Config) : St → List Nat → Out Unit
  | st, [] => .ok st ()
  | st, j :: js =>
    match startJob cfg st j with
    | .exn st' => .exn st'
    | .ok st' _ => startLoop cfg st' js

/-- `Pipeline.start`: guarded by the pipeline status and by every
job's status; requires at least one job; `get_ready` on every job
(aborting on the first `False`, keeping whatever was already set to
`waiting`); then `start` on every job; then the pipeline becomes
`running`. -/
def pipelineStart (cfg : Config) (st : St) : Out Bool :=
  if st.pstatus ∉ ["idle", "finished", "failed", "succeeded"] then .ok st false
  else
    let ids := st.jobs.map (·.1)
    if ids.length < 1 then .ok st false
    else if !(st.jobs.all (fun e => e.2.status ∈ ["idle", "succeeded", "failed"]))
      then .ok st false
    else
      match getReadyLoop cfg st ids with
      | (st1, false) => .ok st1 false
      | (st1, true) =>
        match startLoop cfg st1 ids with
        | .exn st2 => .exn st2
        | .ok st2 _ => .ok { st2 with pstatus := "running" } true

def stopAll : St → List Nat → St
  | st, [] => st
  | st, j :: js => stopAll (stopJob st j).1 js

/-- `Pipeline.stop`: only from `running`; stop every job; if any job
is then outside succeeded/failed the pipeline becomes `stopping`,
otherwise it finalizes immediately. -/
def pipelineStop (cfg : Config) (st : St) : St × Bool :=
  if st.pstatus ≠ "running" then (st, false)
  else
    let st1 := stopAll st (st.jobs.map (·.1))
    if st1.jobs.any (fun e => e.2.status ∉ ["succeeded", "failed"]) then
      ({ st1 with pstatus := "stopping" }, true)
    else (finishP cfg st1, true)

/-- `Pipeline.start_single_job`: bypasses the graph — run the job
directly (an exception from `run` propagates before the pipeline is
touched) and mark the pipeline `running`. -/
def startSingleJob (cfg : Config) (st : St) (j : Nat) : Out Bool :=
  if st.pstatus ∉ ["idle", "finished", "failed", "succeeded"] then .ok st false
  else
    match jobRun cfg st j with
    | .exn st' => .exn st'
    | .ok st' _ => .ok { st' with pstatus := "running" } true

/-- A freshly created pipeline with its jobs: everything `idle`,
counters zero. -/
def initSt (cfg : Config) : St :=
  ⟨"idle", cfg.jobIds.map (fun j => (j, ⟨"idle", 0, 0, 0⟩)), [], 0, 0⟩

/-- States reachable from the initial pipeline by the pipeline-level
operations plus the dispatcher's completion callbacks for jobs of the
pipeline; the state after an operation is its state component whether
the operation returned normally or raised. -/
inductive Reach (cfg : Config) : St → Prop
  | init : Reach cfg (initSt cfg)
  | pstart {st} : Reach cfg st → Reach cfg (pipelineStart cfg st).state
  | pstop {st} : Reach cfg st → Reach cfg (pipelineStop cfg st).1
  | psingle {st j} : j ∈ cfg.jobIds → Reach cfg st →
      Reach cfg (startSingleJob cfg st j).state
  | pjobFinished {st} : Reach cfg st → Reach cfg (jobFinished cfg st).1
  | wsucc {st j} : j ∈ cfg.jobIds → Reach cfg st →
      Reach cfg (workerSucceeded cfg st j).state
  | wfail {st j} : j ∈ cfg.jobIds → Reach cfg st →
      Reach cfg (workerFailed cfg st j).state

/-! ## Basic state-machine lemmas -/

def jobIdsOf (st : St) : List Nat := st.jobs.map (·.1)

theorem find?_upd (l : List (Nat × JobState)) (j k : Nat) (f : JobState → JobState) :
    ((l.map (fun e => if e.1 == j then (e.1, f e.2) else e)).find?
        (fun e => e.1 == k)).map (·.2) =
      if k = j then ((l.find? (fun e => e.1 == k)).map (·.2)).map f
      else (l.find? (fun e => e.1 == k)).map (·.2) := by
  induction l with
  | nil => by_cases h : k = j <;> simp [h]
  | cons e es ih =>
    simp only [List.map_cons]
    by_cases hej : e.1 = j
    · by_cases hek : e.1 = k
      · have hkj : k = j := hek ▸ hej
        rw [List.find?_cons_of_pos _ (by simp [hej, hek, hkj.symm]),
          List.find?_cons_of_pos _ (by simp [hek]), if_pos hkj]
        simp [hej]
      · have hkj : ¬k = j := fun h => hek (h ▸ hej)
        have hjk : ¬j = k := fun h => hkj h.symm
        rw [List.find?_cons_of_neg _ (by simp [hej, hek, hjk]),
          List.find?_cons_of_neg _ (by simp [hek])]
        rw [ih, if_neg hkj]
    · by_cases hek : e.1 = k
      · have hkj : ¬k = j := fun h => hej (hek.symm ▸ h ▸ rfl)
        rw [List.find?_cons_of_pos _ (by simp [hej, hek, hkj]),
          List.find?_cons_of_pos _ (by simp [hek]), if_neg hkj]
        simp [hej]
      · rw [List.find?_cons_of_neg _ (by simp [hej, hek]),
          List.find?_cons_of_neg _ (by simp [hek])]
        exact ih

theorem lookupJob_updJob (st : St) (j : Nat) (f : JobState → JobState) (k : Nat) :
    lookupJob (updJob st j f) k =
      if k = j then (lookupJob st k).map f else lookupJob st k := by
  unfold lookupJob updJob
  have := find?_upd st.jobs j k f
  by_cases h : k = j
  · rw [if_pos h] at this ⊢
    rw [this, Option.map_map]
  · rw [if_neg h] at this ⊢
    exact this

theorem jobIdsOf_updJob (st : St) (j : Nat) (f : JobState → JobState) :
    jobIdsOf (updJob st j f) = jobIdsOf st := by
  unfold jobIdsOf updJob
  simp only [List.map_map]
  apply List.map_congr_left
  intro e _
  by_cases he : e.1 = j <;> simp [he]

theorem mem_jobIdsOf {st : St} {k : Nat} :
    k ∈ jobIdsOf st ↔ ∃ s, lookupJob st k = some s := by
  unfold jobIdsOf lookupJob
  induction st.jobs with
  | nil => simp
  | cons e es ih =>
    by_cases he : e.1 = k
    · simp [List.find?, he]
    · have h1 : (e.1 == k) = false := by simp [he]
      simp only [List.map_cons, List.mem_cons, List.find?, h1]
      rw [← ih]
      constructor
      · rintro (h | h)
        · exact absurd h.symm he
        · exact h
      · intro h; right; exact h

/-- What the cascade functions may do to the job table: a job that is
not `waiting` is untouched; a job still `waiting` afterwards was
untouched; the key set is unchanged; the ghost log only grows at the
end; the `job_finished` count never decreases. -/
def Frozen (st st' : St) : Prop :=
  (∀ k s, lookupJob st k = some s → s.status ≠ "waiting" → lookupJob st' k = some s) ∧
  (∀ k s, lookupJob st' k = some s → s.status = "waiting" → lookupJob st k = some s) ∧
  jobIdsOf st' = jobIdsOf st ∧
  (∃ t, st'.sdjLog = st.sdjLog ++ t) ∧
  st.jfCount ≤ st'.jfCount

theorem Frozen.refl (st : St) : Frozen st st :=
  ⟨fun _ _ h _ => h, fun _ _ h _ => h, rfl, ⟨[], by simp⟩, le_refl _⟩

theorem Frozen.trans {s1 s2 s3 : St} (h12 : Frozen s1 s2) (h23 : Frozen s2 s3) :
    Frozen s1 s3 := by
  obtain ⟨a12, b12, c12, ⟨t12, d12⟩, e12⟩ := h12
  obtain ⟨a23, b23, c23, ⟨t23, d23⟩, e23⟩ := h23
  refine ⟨?_, ?_, c23.trans c12, ⟨t12 ++ t23, by rw [d23, d12, List.append_assoc]⟩,
    e12.trans e23⟩
  · intro k s h hw
    exact a23 k s (a12 k s h hw) hw
  · intro k s h hw
    exact b12 k s (b23 k s h hw) hw

/-- Whether a pipeline in `running`/`stopping` owns a job outside
`succeeded`/`failed`. -/
def hasLive (st : St) : Prop :=
  ∃ e ∈ st.jobs, e.2.status ≠ "succeeded" ∧ e.2.status ≠ "failed"

def InvP (st : St) : Prop :=
  st.pstatus = "running" ∨ st.pstatus = "stopping" → hasLive st

/-- `job_finished` unconditionally establishes the liveness invariant:
either it finalizes (the pipeline status becomes terminal) or some job
is outside succeeded/failed/idle. -/
theorem jobFinished_inv (cfg : Config) (st : St) : InvP (jobFinished cfg st).1 := by
  unfold jobFinished
  by_cases h : st.jobs.all (fun e => e.2.status ∈ ["succeeded", "failed", "idle"])
  · have h2 : ({ st with jfCount := st.jfCount + 1 } : St).jobs.all
        (fun e => decide (e.2.status ∈ ["succeeded", "failed", "idle"])) = true := by
      simpa using h
    rw [if_pos h2]
    intro hp
    unfold finishP at hp
    by_cases hf : (({ st with jfCount := st.jfCount + 1 } : St).jobs.filter
        (fun e => !(cfg.conds.any (fun c => c.preceding_job_id == e.1)))).any
        (fun e => e.2.status == "failed") <;>
      simp [hf] at hp <;> rcases hp with hp | hp <;> simp at hp
  · have h2 : ¬(({ st with jfCount := st.jfCount + 1 } : St).jobs.all
        (fun e => decide (e.2.status ∈ ["succeeded", "failed", "idle"])) = true) := by
      simpa using h
    rw [if_neg h2]
    intro _
    simp only [List.all_eq_true, not_forall] at h2
    obtain ⟨e, hmem, hst⟩ := h2
    refine ⟨e, by simpa using hmem, ?_⟩
    simp only [decide_eq_true_eq, List.mem_cons, List.mem_singleton] at hst
    push_neg at hst
    exact ⟨hst.1, hst.2.1⟩

/-- `job_finished` leaves the job table unchanged and bumps the call
count. -/
theorem jobFinished_frozen (cfg : Config) (st : St) :
    (jobFinished cfg st).1.jobs = st.jobs ∧
    (jobFinished cfg st).1.sdjLog = st.sdjLog ∧
    (jobFinished cfg st).1.jfCount = st.jfCount + 1 := by
  unfold jobFinished finishP
  by_cases h : ({ st with jfCount := st.jfCount + 1 } : St).jobs.all
      (fun e => decide (e.2.status ∈ ["succeeded", "failed", "idle"])) = true
  · rw [if_pos h]
    by_cases hf : (({ st with jfCount := st.jfCount + 1 } : St).jobs.filter
        (fun e => !(cfg.conds.any (fun c => c.preceding_job_id == e.1)))).any
        (fun e => e.2.status == "failed") <;> simp [hf]
  · rw [if_neg h]
    exact ⟨rfl, rfl, rfl⟩

/-- The conditions' foreign keys resolve against the job table (the
database's referential integrity). -/
def WFC (cfg : Config) (st : St) : Prop :=
  ∀ c ∈ cfg.conds, c.preceding_job_id ∈ jobIdsOf st

/-- Every `waiting` job has resolvable params (established by
`get_ready`, which is the only operation that sets `waiting`). -/
def GoodW (cfg : Config) (st : St) : Prop :=
  ∀ e ∈ st.jobs, e.2.status = "waiting" → resolveOk cfg e.1 = true

theorem WFC_of_ids {cfg : Config} {st st' : St}
    (h : WFC cfg st) (hids : jobIdsOf st' = jobIdsOf st) : WFC cfg st' := by
  intro c hc
  rw [hids]
  exact h c hc

theorem GoodW_of_jobs_eq {cfg : Config} {st st' : St}
    (h : GoodW cfg st) (hj : st'.jobs = st.jobs) : GoodW cfg st' := by
  intro e he
  rw [hj] at he
  exact h e he

theorem mem_updJob {st : St} {j : Nat} {f : JobState → JobState}
    {e' : Nat × JobState} (h : e' ∈ (updJob st j f).jobs) :
    ∃ e ∈ st.jobs, e' = if e.1 == j then (e.1, f e.2) else e := by
  unfold updJob at h
  obtain ⟨e, he, heq⟩ := List.mem_map.mp h
  exact ⟨e, he, heq.symm⟩

theorem GoodW_updJob {cfg : Config} {st : St} {j : Nat} {f : JobState → JobState}
    (hf : ∀ s, (f s).status = s.status ∨ (f s).status ≠ "waiting")
    (h : GoodW cfg st) : GoodW cfg (updJob st j f) := by
  intro e' he' hw
  obtain ⟨e, he, heq⟩ := mem_updJob he'
  by_cases hej : (e.1 == j) = true
  · rw [heq, if_pos hej] at hw ⊢
    rcases hf e.2 with hsame | hnw
    · exact h e he (by rw [← hsame]; exact hw)
    · exact absurd hw hnw
  · rw [heq, if_neg hej] at hw ⊢
    exact h e he hw

theorem lookupJob_ghost (st : St) (l : List Nat) (k : Nat) :
    lookupJob { st with sdjLog := l } k = lookupJob st k := rfl

/-- A `Frozen` step that touches only job `j`, which was `waiting` (or
absent) before and is not `waiting` after. -/
theorem frozen_touch (st st' : St) (j : Nat)
    (h1 : ∀ k, k ≠ j → lookupJob st' k = lookupJob st k)
    (h2 : ∀ s, lookupJob st j = some s → s.status = "waiting")
    (h3 : ∀ s, lookupJob st' j = some s → s.status ≠ "waiting")
    (hids : jobIdsOf st' = jobIdsOf st)
    (hlog : ∃ t, st'.sdjLog = st.sdjLog ++ t)
    (hjf : st.jfCount ≤ st'.jfCount) : Frozen st st' := by
  refine ⟨?_, ?_, hids, hlog, hjf⟩
  · intro k s h hw
    by_cases hk : k = j
    · subst hk
      exact absurd (h2 s h) hw
    · rw [h1 k hk]
      exact h
  · intro k s h hw
    by_cases hk : k = j
    · subst hk
      exact absurd hw (h3 s h)
    · rw [← h1 k hk]
      exact h

theorem enqueue_fst_none {st : St} {j : Nat} (h : lookupJob st j = none) :
    (enqueue st j).1 = st := by
  unfold enqueue
  rw [h]

theorem enqueue_fst_some {st : St} {j : Nat} {js : JobState}
    (h : lookupJob st j = some js) :
    (enqueue st j).1 =
      if js.status = "running" then
        updJob st j (fun k => { k with enqueued := k.enqueued + 1 })
      else st := by
  unfold enqueue
  rw [h]
  by_cases hr : js.status = "running" <;> simp [hr]

/-- `Job.run` touches only job `j`; if `j` is absent or `waiting`
before, the step is `Frozen` (whether the params resolve — leaving a
`running` job with one enqueued worker — or the resolution raises
after the status write). -/
theorem jobRun_frozen (cfg : Config) (st : St) (j : Nat)
    (hjw : ∀ s, lookupJob st j = some s → s.status = "waiting") :
    Frozen st (jobRun cfg st j).state := by
  set f0 : JobState → JobState := fun js =>
    { js with enqueued := 0, succeededW := 0, failedW := 0, status := "running" }
    with hf0
  set st1 := updJob st j f0 with hst1
  have hl1 : ∀ k, lookupJob st1 k =
      if k = j then (lookupJob st k).map f0 else lookupJob st k := by
    intro k
    rw [hst1, lookupJob_updJob]
  have hfr1 : Frozen st st1 := by
    apply frozen_touch st st1 j
    · intro k hk
      rw [hl1, if_neg hk]
    · exact hjw
    · intro s h
      rw [hl1, if_pos rfl] at h
      cases hcur : lookupJob st j with
      | none => rw [hcur] at h; simp at h
      | some s0 =>
        rw [hcur] at h
        simp only [Option.map_some', Option.some.injEq] at h
        rw [← h, hf0]
        simp
    · rw [hst1, jobIdsOf_updJob]
    · exact ⟨[], by simp [hst1, updJob]⟩
    · exact le_of_eq (by simp [hst1, updJob])
  by_cases hok : resolveOk cfg j = true
  · have hstate : (jobRun cfg st j).state = (enqueue st1 j).1 := by
      unfold jobRun
      rw [if_pos hok]
      rfl
    cases hl : lookupJob st1 j with
    | none =>
      rw [hstate, enqueue_fst_none hl]
      exact hfr1
    | some js =>
      rw [hstate, enqueue_fst_some hl]
      by_cases hrun : js.status = "running"
      · rw [if_pos hrun]
        apply frozen_touch st _ j
        · intro k hk
          rw [lookupJob_updJob, if_neg hk, hl1, if_neg hk]
        · exact hjw
        · intro s h
          rw [lookupJob_updJob, if_pos rfl, hl] at h
          simp only [Option.map_some', Option.some.injEq] at h
          have hs : s.status = js.status := by rw [← h]
          rw [hs, hrun]
          decide
        · rw [jobIdsOf_updJob, hst1, jobIdsOf_updJob]
        · exact ⟨[], by simp [updJob, hst1]⟩
        · exact le_of_eq (by simp [updJob, hst1])
      · rw [if_neg hrun]
        exact hfr1
  · have hstate : (jobRun cfg st j).state = st1 := by
      unfold jobRun
      rw [if_neg hok]
      rfl
    rw [hstate]
    exact hfr1

theorem jobFinished_frozen' (cfg : Config) (st : St) :
    Frozen st (jobFinished cfg st).1 := by
  obtain ⟨hj, hl, hc⟩ := jobFinished_frozen cfg st
  have hlk : ∀ k, lookupJob (jobFinished cfg st).1 k = lookupJob st k := by
    intro k
    unfold lookupJob
    rw [hj]
  exact ⟨fun k s h _ => (hlk k).symm ▸ h, fun k s h _ => (hlk k) ▸ h,
    by unfold jobIdsOf; rw [hj], ⟨[], by rw [hl, List.append_nil]⟩, by omega⟩

theorem setStatus_frozen (st : St) (j : Nat) (s' : String)
    (hjw : ∀ s, lookupJob st j = some s → s.status = "waiting")
    (hnw : s' ≠ "waiting") : Frozen st (setStatus st j s') := by
  apply frozen_touch st _ j
  · intro k hk
    unfold setStatus
    rw [lookupJob_updJob, if_neg hk]
  · exact hjw
  · intro s h
    unfold setStatus at h
    rw [lookupJob_updJob, if_pos rfl] at h
    cases hcur : lookupJob st j with
    | none => rw [hcur] at h; simp at h
    | some s0 =>
      rw [hcur] at h
      simp only [Option.map_some', Option.some.injEq] at h
      rw [← h]
      exact hnw
  · exact jobIdsOf_updJob ..
  · exact ⟨[], by simp [setStatus, updJob]⟩
  · exact le_of_eq (by simp [setStatus, updJob])

theorem frozen_ghostLog (st : St) (j : Nat) :
    Frozen st { st with sdjLog := st.sdjLog ++ [j] } :=
  ⟨fun _ _ h _ => h, fun _ _ h _ => h, rfl, ⟨[j], rfl⟩, le_refl _⟩

/-- The cascade functions only move jobs out of `waiting`, never add
to `waiting`, never drop or add rows, only append to the ghost log,
and never decrease the `job_finished` count — at every fuel. -/
theorem cascade_frozen : ∀ fuel : Nat,
    (∀ cfg st j, Frozen st (startF fuel cfg st j).state) ∧
    (∀ cfg st j conds js, lookupJob st j = some js → js.status = "waiting" →
      Frozen st (condLoop fuel cfg st j conds).state) ∧
    (∀ cfg st j, Frozen st (sdjF fuel cfg st j).state) ∧
    (∀ cfg st ds, Frozen st (startListF fuel cfg st ds).state) := by
  intro fuel
  induction fuel with
  | zero =>
    exact ⟨fun cfg st j => Frozen.refl st, fun cfg st j conds js _ _ => Frozen.refl st,
      fun cfg st j => Frozen.refl st, fun cfg st ds => Frozen.refl st⟩
  | succ fuel ih =>
    obtain ⟨ihA, ihB, ihC, ihD⟩ := ih
    have hA : ∀ cfg st j, Frozen st (startF (fuel + 1) cfg st j).state := by
      intro cfg st j
      show Frozen st (match lookupJob st j with
        | none => (Out.ok st false : Out Bool)
        | some js =>
          if js.status = "waiting" then
            condLoop fuel cfg st j (cfg.conds.filter (fun c => c.job_id == j))
          else .ok st false).state
      cases hlk : lookupJob st j with
      | none => exact Frozen.refl st
      | some js =>
        show Frozen st (if js.status = "waiting" then
            condLoop fuel cfg st j (cfg.conds.filter (fun c => c.job_id == j))
          else (Out.ok st false : Out Bool)).state
        by_cases hw : js.status = "waiting"
        · rw [if_pos hw]
          exact ihB cfg st j _ js hlk hw
        · rw [if_neg hw]
          exact Frozen.refl st
    have hB : ∀ cfg st j conds js, lookupJob st j = some js → js.status = "waiting" →
        Frozen st (condLoop (fuel + 1) cfg st j conds).state := by
      intro cfg st j conds js hlk hw
      cases conds with
      | nil =>
        show Frozen st (match jobRun cfg st j with
          | .exn st' => (Out.exn st' : Out Bool)
          | .ok st' _ => .ok st' true).state
        have hrf := jobRun_frozen cfg st j
          (fun s h => by rw [hlk] at h; cases h; exact hw)
        cases hrr : jobRun cfg st j with
        | exn st' => rw [hrr] at hrf; exact hrf
        | ok st' v => rw [hrr] at hrf; exact hrf
      | cons c rest =>
        show Frozen st (match (lookupJob st c.preceding_job_id).map
            (fun s : JobState => s.status) with
          | none => (Out.exn st : Out Bool)
          | some ps =>
            if c.condition = "success" then
              if ps ≠ "succeeded" then
                if ps = "failed" then
                  match sdjF fuel cfg (setStatus st j "failed") j with
                  | .exn st' => .exn st'
                  | .ok st' _ => .ok st' false
                else .ok st false
              else condLoop fuel cfg st j rest
            else if c.condition = "fail" then
              if ps ≠ "failed" then
                if ps = "succeeded" then
                  match sdjF fuel cfg (setStatus st j "failed") j with
                  | .exn st' => .exn st'
                  | .ok st' _ => .ok st' false
                else .ok st false
              else condLoop fuel cfg st j rest
            else if c.condition = "whatever" then
              if ps ∉ ["succeeded", "failed"] then .ok st false
              else condLoop fuel cfg st j rest
            else condLoop fuel cfg st j rest).state
        have hhard : Frozen st (match sdjF fuel cfg (setStatus st j "failed") j with
            | .exn st' => (Out.exn st' : Out Bool)
            | .ok st' _ => .ok st' false).state := by
          have h1 : Frozen st (setStatus st j "failed") :=
            setStatus_frozen st j "failed"
              (fun s h => by rw [hlk] at h; cases h; exact hw) (by decide)
          have h2 := ihC cfg (setStatus st j "failed") j
          cases hs : sdjF fuel cfg (setStatus st j "failed") j with
          | exn st' => rw [hs] at h2; exact Frozen.trans h1 h2
          | ok st' v => rw [hs] at h2; exact Frozen.trans h1 h2
        cases hp : (lookupJob st c.preceding_job_id).map (·.status) with
        | none => exact Frozen.refl st
        | some ps =>
          show Frozen st (if c.condition = "success" then
              if ps ≠ "succeeded" then
                if ps = "failed" then
                  match sdjF fuel cfg (setStatus st j "failed") j with
                  | .exn st' => (Out.exn st' : Out Bool)
                  | .ok st' _ => .ok st' false
                else .ok st false
              else condLoop fuel cfg st j rest
            else if c.condition = "fail" then
              if ps ≠ "failed" then
                if ps = "succeeded" then
                  match sdjF fuel cfg (setStatus st j "failed") j with
                  | .exn st' => .exn st'
                  | .ok st' _ => .ok st' false
                else .ok st false
              else condLoop fuel cfg st j rest
            else if c.condition = "whatever" then
              if ps ∉ ["succeeded", "failed"] then .ok st false
              else condLoop fuel cfg st j rest
            else condLoop fuel cfg st j rest).state
          by_cases hc1 : c.condition = "success"
          · rw [if_pos hc1]
            by_cases hs1 : ps = "succeeded"
            · rw [if_neg (by simpa using hs1)]
              exact ihB cfg st j rest js hlk hw
            · rw [if_pos (by simpa using hs1)]
              by_cases hf1 : ps = "failed"
              · rw [if_pos hf1]
                exact hhard
              · rw [if_neg hf1]
                exact Frozen.refl st
          · rw [if_neg hc1]
            by_cases hc2 : c.condition = "fail"
            · rw [if_pos hc2]
              by_cases hs1 : ps = "failed"
              · rw [if_neg (by simpa using hs1)]
                exact ihB cfg st j rest js hlk hw
              · rw [if_pos (by simpa using hs1)]
                by_cases hf1 : ps = "succeeded"
                · rw [if_pos hf1]
                  exact hhard
                · rw [if_neg hf1]
                  exact Frozen.refl st
            · rw [if_neg hc2]
              by_cases hc3 : c.condition = "whatever"
              · rw [if_pos hc3]
                by_cases ht : ps ∈ ["succeeded", "failed"]
                · rw [if_neg (not_not_intro ht)]
                  exact ihB cfg st j rest js hlk hw
                · rw [if_pos ht]
                  exact Frozen.refl st
              · rw [if_neg hc3]
                exact ihB cfg st j rest js hlk hw
    have hC : ∀ cfg st j, Frozen st (sdjF (fuel + 1) cfg st j).state := by
      intro cfg st j
      have h0 : Frozen st { st with sdjLog := st.sdjLog ++ [j] } := frozen_ghostLog st j
      show Frozen st (match startListF fuel cfg { st with sdjLog := st.sdjLog ++ [j] }
          (((cfg.conds.filter (fun c : SCond => c.preceding_job_id == j)).map
            (fun c : SCond => c.job_id)).filter
            (fun d => (lookupJob { st with sdjLog := st.sdjLog ++ [j] } d).isSome)) with
        | .exn st' => (Out.exn st' : Out Unit)
        | .ok st' _ => .ok (jobFinished cfg st').1 ()).state
      have h1 := ihD cfg { st with sdjLog := st.sdjLog ++ [j] }
        (((cfg.conds.filter (fun c => c.preceding_job_id == j)).map
          (fun c => c.job_id)).filter
          (fun d => (lookupJob { st with sdjLog := st.sdjLog ++ [j] } d).isSome))
      cases hs : startListF fuel cfg { st with sdjLog := st.sdjLog ++ [j] }
          (((cfg.conds.filter (fun c => c.preceding_job_id == j)).map
            (fun c => c.job_id)).filter
            (fun d => (lookupJob { st with sdjLog := st.sdjLog ++ [j] } d).isSome)) with
      | exn st' =>
        rw [hs] at h1
        exact Frozen.trans h0 h1
      | ok st' v =>
        rw [hs] at h1
        exact Frozen.trans (Frozen.trans h0 h1) (jobFinished_frozen' cfg st')
    have hD : ∀ cfg st ds, Frozen st (startListF (fuel + 1) cfg st ds).state := by
      intro cfg st ds
      cases ds with
      | nil => exact Frozen.refl st
      | cons d rest =>
        show Frozen st (match startF fuel cfg st d with
          | .exn st' => (Out.exn st' : Out Unit)
          | .ok st' _ => startListF fuel cfg st' rest).state
        have h1 := ihA cfg st d
        cases hs : startF fuel cfg st d with
        | exn st' =>
          rw [hs] at h1
          exact h1
        | ok st' v =>
          rw [hs] at h1
          exact Frozen.trans h1 (ihD cfg st' rest)
    exact ⟨hA, hB, hC, hD⟩

theorem resolveOk_of_goodW {cfg : Config} {st : St} {j : Nat} {js : JobState}
    (h : GoodW cfg st) (hl : lookupJob st j = some js)
    (hw : js.status = "waiting") : resolveOk cfg j = true := by
  unfold lookupJob at hl
  cases hf : st.jobs.find? (fun e => e.1 == j) with
  | none => rw [hf] at hl; simp at hl
  | some e0 =>
    rw [hf] at hl
    simp only [Option.map_some', Option.some.injEq] at hl
    have he0 : e0 ∈ st.jobs := List.mem_of_find?_eq_some hf
    have hkey := List.find?_some hf
    have hres := h e0 he0 (by rw [hl]; exact hw)
    rwa [show e0.1 = j from by simpa using hkey] at hres

theorem jobRun_ok {cfg : Config} {st : St} {j : Nat} (h : resolveOk cfg j = true) :
    jobRun cfg st j = .ok (enqueue (updJob st j (fun js =>
      { js with enqueued := 0, succeededW := 0, failedW := 0, status := "running" })) j).1 () := by
  unfold jobRun
  rw [if_pos h]

theorem jobRun_goodW {cfg : Config} {st : St} {j : Nat}
    (hok : resolveOk cfg j = true) (h : GoodW cfg st) :
    GoodW cfg (jobRun cfg st j).state := by
  rw [jobRun_ok hok]
  show GoodW cfg (enqueue (updJob st j (fun js =>
    { js with enqueued := 0, succeededW := 0, failedW := 0, status := "running" })) j).1
  set st1 := updJob st j (fun js =>
    { js with enqueued := 0, succeededW := 0, failedW := 0, status := "running" }) with hst1
  have h1 : GoodW cfg st1 := GoodW_updJob (fun s => Or.inr (by simp)) h
  cases hl : lookupJob st1 j with
  | none =>
    rw [enqueue_fst_none hl]
    exact h1
  | some js =>
    rw [enqueue_fst_some hl]
    by_cases hr : js.status = "running"
    · rw [if_pos hr]
      exact GoodW_updJob (fun s => Or.inl rfl) h1
    · rw [if_neg hr]
      exact h1

/-- Under referential integrity of the conditions and resolvable
params of every `waiting` job, the cascade functions never raise, and
they preserve the waiting-implies-resolvable invariant. -/
theorem cascade_safe : ∀ fuel : Nat,
    (∀ cfg st j, WFC cfg st → GoodW cfg st →
      (∀ s, startF fuel cfg st j ≠ .exn s) ∧
      GoodW cfg (startF fuel cfg st j).state) ∧
    (∀ cfg st j conds js, WFC cfg st → GoodW cfg st →
      lookupJob st j = some js → js.status = "waiting" →
      (∀ c ∈ conds, c.preceding_job_id ∈ jobIdsOf st) →
      (∀ s, condLoop fuel cfg st j conds ≠ .exn s) ∧
      GoodW cfg (condLoop fuel cfg st j conds).state) ∧
    (∀ cfg st j, WFC cfg st → GoodW cfg st →
      (∀ s, sdjF fuel cfg st j ≠ .exn s) ∧
      GoodW cfg (sdjF fuel cfg st j).state) ∧
    (∀ cfg st ds, WFC cfg st → GoodW cfg st →
      (∀ s, startListF fuel cfg st ds ≠ .exn s) ∧
      GoodW cfg (startListF fuel cfg st ds).state) := by
  intro fuel
  induction fuel with
  | zero =>
    refine ⟨fun cfg st j _ hg => ⟨fun s h => Out.noConfusion h, hg⟩,
      fun cfg st j conds js _ hg _ _ _ => ⟨fun s h => Out.noConfusion h, hg⟩,
      fun cfg st j _ hg => ⟨fun s h => Out.noConfusion h, hg⟩,
      fun cfg st ds _ hg => ⟨fun s h => Out.noConfusion h, hg⟩⟩
  | succ fuel ih =>
    obtain ⟨ihA, ihB, ihC, ihD⟩ := ih
    have hA : ∀ cfg st j, WFC cfg st → GoodW cfg st →
        (∀ s, startF (fuel + 1) cfg st j ≠ .exn s) ∧
        GoodW cfg (startF (fuel + 1) cfg st j).state := by
      intro cfg st j hwfc hg
      show (∀ s, (match lookupJob st j with
        | none => (Out.ok st false : Out Bool)
        | some js =>
          if js.status = "waiting" then
            condLoop fuel cfg st j (cfg.conds.filter (fun c => c.job_id == j))
          else .ok st false) ≠ .exn s) ∧ GoodW cfg (match lookupJob st j with
        | none => (Out.ok st false : Out Bool)
        | some js =>
          if js.status = "waiting" then
            condLoop fuel cfg st j (cfg.conds.filter (fun c => c.job_id == j))
          else .ok st false).state
      cases hlk : lookupJob st j with
      | none => exact ⟨fun s h => Out.noConfusion h, hg⟩
      | some js =>
        show (∀ s, (if js.status = "waiting" then
            condLoop fuel cfg st j (cfg.conds.filter (fun c => c.job_id == j))
          else (Out.ok st false : Out Bool)) ≠ .exn s) ∧ GoodW cfg
          (if js.status = "waiting" then
            condLoop fuel cfg st j (cfg.conds.filter (fun c => c.job_id == j))
          else (Out.ok st false : Out Bool)).state
        by_cases hw : js.status = "waiting"
        · rw [if_pos hw]
          exact ihB cfg st j _ js hwfc hg hlk hw
            (fun c hc => hwfc c (List.mem_filter.mp hc).1)
        · rw [if_neg hw]
          exact ⟨fun s h => Out.noConfusion h, hg⟩
    have hB : ∀ cfg st j conds js, WFC cfg st → GoodW cfg st →
        lookupJob st j = some js → js.status = "waiting" →
        (∀ c ∈ conds, c.preceding_job_id ∈ jobIdsOf st) →
        (∀ s, condLoop (fuel + 1) cfg st j conds ≠ .exn s) ∧
        GoodW cfg (condLoop (fuel + 1) cfg st j conds).state := by
      intro cfg st j conds js hwfc hg hlk hw hconds
      cases conds with
      | nil =>
        have hres := resolveOk_of_goodW hg hlk hw
        show (∀ s, (match jobRun cfg st j with
          | .exn st' => (Out.exn st' : Out Bool)
          | .ok st' _ => .ok st' true) ≠ .exn s) ∧ GoodW cfg (match jobRun cfg st j with
          | .exn st' => (Out.exn st' : Out Bool)
          | .ok st' _ => .ok st' true).state
        have hgw := jobRun_goodW hres hg
        rw [jobRun_ok hres] at hgw ⊢
        exact ⟨fun s h => Out.noConfusion h, hgw⟩
      | cons c rest =>
        have hpm : c.preceding_job_id ∈ jobIdsOf st := hconds c (by simp)
        obtain ⟨sp, hsp⟩ := mem_jobIdsOf.mp hpm
        show (∀ s, (match (lookupJob st c.preceding_job_id).map
            (fun s : JobState => s.status) with
          | none => (Out.exn st : Out Bool)
          | some ps =>
            if c.condition = "success" then
              if ps ≠ "succeeded" then
                if ps = "failed" then
                  match sdjF fuel cfg (setStatus st j "failed") j with
                  | .exn st' => .exn st'
                  | .ok st' _ => .ok st' false
                else .ok st false
              else condLoop fuel cfg st j rest
            else if c.condition = "fail" then
              if ps ≠ "failed" then
                if ps = "succeeded" then
                  match sdjF fuel cfg (setStatus st j "failed") j with
                  | .exn st' => .exn st'
                  | .ok st' _ => .ok st' false
                else .ok st false
              else condLoop fuel cfg st j rest
            else if c.condition = "whatever" then
              if ps ∉ ["succeeded", "failed"] then .ok st false
              else condLoop fuel cfg st j rest
            else condLoop fuel cfg st j rest) ≠ .exn s) ∧ GoodW cfg
          (match (lookupJob st c.preceding_job_id).map
            (fun s : JobState => s.status) with
          | none => (Out.exn st : Out Bool)
          | some ps =>
            if c.condition = "success" then
              if ps ≠ "succeeded" then
                if ps = "failed" then
                  match sdjF fuel cfg (setStatus st j "failed") j with
                  | .exn st' => .exn st'
                  | .ok st' _ => .ok st' false
                else .ok st false
              else condLoop fuel cfg st j rest
            else if c.condition = "fail" then
              if ps ≠ "failed" then
                if ps = "succeeded" then
                  match sdjF fuel cfg (setStatus st j "failed") j with
                  | .exn st' => .exn st'
                  | .ok st' _ => .ok st' false
                else .ok st false
              else condLoop fuel cfg st j rest
            else if c.condition = "whatever" then
              if ps ∉ ["succeeded", "failed"] then .ok st false
              else condLoop fuel cfg st j rest
            else condLoop fuel cfg st j rest).state
        rw [hsp]
        simp only [Option.map_some']
        have hrest := fun (_ : Unit) => ihB cfg st j rest js hwfc hg hlk hw
          (fun c hc => hconds c (by simp [hc]))
        have hhard : (∀ s, (match sdjF fuel cfg (setStatus st j "failed") j with
            | .exn st' => (Out.exn st' : Out Bool)
            | .ok st' _ => .ok st' false) ≠ .exn s) ∧ GoodW cfg
            (match sdjF fuel cfg (setStatus st j "failed") j with
            | .exn st' => (Out.exn st' : Out Bool)
            | .ok st' _ => .ok st' false).state := by
          have hwfc' : WFC cfg (setStatus st j "failed") :=
            WFC_of_ids hwfc (jobIdsOf_updJob ..)
          have hg' : GoodW cfg (setStatus st j "failed") :=
            GoodW_updJob (fun s => Or.inr (by simp)) hg
          obtain ⟨hne, hgw⟩ := ihC cfg (setStatus st j "failed") j hwfc' hg'
          cases hs : sdjF fuel cfg (setStatus st j "failed") j with
          | exn st' => exact absurd hs (hne st')
          | ok st' v =>
            rw [hs] at hgw
            exact ⟨fun s h => Out.noConfusion h, hgw⟩
        by_cases hc1 : c.condition = "success"
        · rw [if_pos hc1]
          by_cases hs1 : sp.status = "succeeded"
          · rw [if_neg (by simpa using hs1)]
            exact hrest ()
          · rw [if_pos (by simpa using hs1)]
            by_cases hf1 : sp.status = "failed"
            · rw [if_pos hf1]
              exact hhard
            · rw [if_neg hf1]
              exact ⟨fun s h => Out.noConfusion h, hg⟩
        · rw [if_neg hc1]
          by_cases hc2 : c.condition = "fail"
          · rw [if_pos hc2]
            by_cases hs1 : sp.status = "failed"
            · rw [if_neg (by simpa using hs1)]
              exact hrest ()
            · rw [if_pos (by simpa using hs1)]
              by_cases hf1 : sp.status = "succeeded"
              · rw [if_pos hf1]
                exact hhard
              · rw [if_neg hf1]
                exact ⟨fun s h => Out.noConfusion h, hg⟩
          · rw [if_neg hc2]
            by_cases hc3 : c.condition = "whatever"
            · rw [if_pos hc3]
              by_cases ht : sp.status ∈ ["succeeded", "failed"]
              · rw [if_neg (not_not_intro ht)]
                exact hrest ()
              · rw [if_pos ht]
                exact ⟨fun s h => Out.noConfusion h, hg⟩
            · rw [if_neg hc3]
              exact hrest ()
    have hC : ∀ cfg st j, WFC cfg st → GoodW cfg st →
        (∀ s, sdjF (fuel + 1) cfg st j ≠ .exn s) ∧
        GoodW cfg (sdjF (fuel + 1) cfg st j).state := by
      intro cfg st j hwfc hg
      set st0 : St := { st with sdjLog := st.sdjLog ++ [j] } with hst0
      set deps := (((cfg.conds.filter (fun c : SCond => c.preceding_job_id == j)).map
        (fun c : SCond => c.job_id)).filter
        (fun d => (lookupJob st0 d).isSome)) with hdeps
      show (∀ s, (match startListF fuel cfg st0 deps with
        | .exn st' => (Out.exn st' : Out Unit)
        | .ok st' _ => .ok (jobFinished cfg st').1 ()) ≠ .exn s) ∧ GoodW cfg
        (match startListF fuel cfg st0 deps with
        | .exn st' => (Out.exn st' : Out Unit)
        | .ok st' _ => .ok (jobFinished cfg st').1 ()).state
      have hwfc0 : WFC cfg st0 := WFC_of_ids hwfc rfl
      have hg0 : GoodW cfg st0 := GoodW_of_jobs_eq hg rfl
      obtain ⟨hne, hgw⟩ := ihD cfg st0 deps hwfc0 hg0
      cases hs : startListF fuel cfg st0 deps with
      | exn st' => exact absurd hs (hne st')
      | ok st' v =>
        rw [hs] at hgw
        refine ⟨fun s h => Out.noConfusion h, ?_⟩
        exact GoodW_of_jobs_eq hgw (jobFinished_frozen cfg st').1
    have hD : ∀ cfg st ds, WFC cfg st → GoodW cfg st →
        (∀ s, startListF (fuel + 1) cfg st ds ≠ .exn s) ∧
        GoodW cfg (startListF (fuel + 1) cfg st ds).state := by
      intro cfg st ds hwfc hg
      cases ds with
      | nil => exact ⟨fun s h => Out.noConfusion h, hg⟩
      | cons d rest =>
        show (∀ s, (match startF fuel cfg st d with
          | .exn st' => (Out.exn st' : Out Unit)
          | .ok st' _ => startListF fuel cfg st' rest) ≠ .exn s) ∧ GoodW cfg
          (match startF fuel cfg st d with
          | .exn st' => (Out.exn st' : Out Unit)
          | .ok st' _ => startListF fuel cfg st' rest).state
        obtain ⟨hne1, hgw1⟩ := ihA cfg st d hwfc hg
        cases hs : startF fuel cfg st d with
        | exn st' => exact absurd hs (hne1 st')
        | ok st' v =>
          rw [hs] at hgw1
          have hids : jobIdsOf st' = jobIdsOf st := by
            have := ((cascade_frozen fuel).1 cfg st d).2.2.1
            rw [hs] at this
            exact this
          exact ihD cfg st' rest (WFC_of_ids hwfc hids) hgw1
    exact ⟨hA, hB, hC, hD⟩

/-- One-step specification of `_start_dependent_jobs` under the
machine invariants: it returns normally, is `Frozen`, logs its entry,
calls `job_finished` (whose outcome establishes the liveness
invariant), and preserves the invariants. -/
theorem sdjF_ok_spec {cfg : Config} {st : St} {j : Nat} (fuel : Nat)
    (hwfc : WFC cfg st) (hg : GoodW cfg st) :
    ∃ st', sdjF (fuel + 1) cfg st j = .ok st' () ∧ Frozen st st' ∧
      (∃ t, st'.sdjLog = st.sdjLog ++ [j] ++ t) ∧
      st.jfCount + 1 ≤ st'.jfCount ∧ InvP st' ∧ GoodW cfg st' := by
  set st0 : St := { st with sdjLog := st.sdjLog ++ [j] } with hst0
  set deps := (((cfg.conds.filter (fun c : SCond => c.preceding_job_id == j)).map
    (fun c : SCond => c.job_id)).filter
    (fun d => (lookupJob st0 d).isSome)) with hdeps
  have hunfold : sdjF (fuel + 1) cfg st j =
      match startListF fuel cfg st0 deps with
      | .exn st' => (Out.exn st' : Out Unit)
      | .ok st' _ => .ok (jobFinished cfg st').1 () := rfl
  have hwfc0 : WFC cfg st0 := WFC_of_ids hwfc rfl
  have hg0 : GoodW cfg st0 := GoodW_of_jobs_eq hg rfl
  obtain ⟨hne, hgw⟩ := ((cascade_safe fuel).2.2.2) cfg st0 deps hwfc0 hg0
  have hfr := ((cascade_frozen fuel).2.2.2) cfg st0 deps
  cases hs : startListF fuel cfg st0 deps with
  | exn s1 => exact absurd hs (hne s1)
  | ok s1 v =>
    rw [hs] at hgw hfr
    simp only [Out.state] at hgw hfr
    obtain ⟨hjobs1, hlog1, hjf1⟩ := jobFinished_frozen cfg s1
    refine ⟨(jobFinished cfg s1).1, by rw [hunfold, hs], ?_, ?_, ?_,
      jobFinished_inv cfg s1, GoodW_of_jobs_eq hgw hjobs1⟩
    · exact Frozen.trans (frozen_ghostLog st j)
        (Frozen.trans hfr (jobFinished_frozen' cfg s1))
    · obtain ⟨t, ht⟩ := hfr.2.2.2.1
      exact ⟨t, by rw [hlog1, ht]⟩
    · obtain hmono := hfr.2.2.2.2
      have : st0.jfCount = st.jfCount := rfl
      omega

/-! ## Claim C7: get_ready validation -/

/-- C7: from a status outside idle/succeeded/failed, or when any of
the job's params fails to resolve, `get_ready` returns `False` with
the state untouched (nothing enqueued, status unchanged) — the
resolution errors `(InvalidExpression, TypeError)` are caught inside
`get_ready`, which returns a plain boolean rather than raising; when
the status precondition holds and every param resolves, it sets the
status to `waiting` and returns `True`. -/
theorem c7_get_ready (cfg : Config) (st : St) (j : Nat) (js : JobState)
    (hl : lookupJob st j = some js) :
    (js.status ∉ ["idle", "succeeded", "failed"] → getReady cfg st j = (st, false)) ∧
    (resolveOk cfg j = false → getReady cfg st j = (st, false)) ∧
    (js.status ∈ ["idle", "succeeded", "failed"] → resolveOk cfg j = true →
      getReady cfg st j = (setStatus st j "waiting", true)) := by
  have hunfold : getReady cfg st j =
      if js.status ∈ ["idle", "succeeded", "failed"] then
        if resolveOk cfg j then (setStatus st j "waiting", true)
        else (st, false)
      else (st, false) := by
    unfold getReady
    rw [hl]
  refine ⟨?_, ?_, ?_⟩
  · intro hs
    rw [hunfold, if_neg hs]
  · intro hres
    rw [hunfold]
    by_cases hs : js.status ∈ ["idle", "succeeded", "failed"]
    · rw [if_pos hs, if_neg (by simp [hres])]
    · rw [if_neg hs]
  · intro hs hres
    rw [hunfold, if_pos hs, if_pos hres]

/-- C7 witness: a job with an unresolvable param fails closed from
`idle`; the same job with the param fixed transitions to `waiting`. -/
theorem c7_get_ready_witness :
    (getReady ⟨1, [1], [], [⟨"bad", "string", none, some 1, "{% nosuch %}"⟩]⟩
      (initSt ⟨1, [1], [], [⟨"bad", "string", none, some 1, "{% nosuch %}"⟩]⟩) 1 =
      (initSt ⟨1, [1], [], [⟨"bad", "string", none, some 1, "{% nosuch %}"⟩]⟩, false)) ∧
    (getReady ⟨1, [1], [], []⟩ (initSt ⟨1, [1], [], []⟩) 1 =
      (setStatus (initSt ⟨1, [1], [], []⟩) 1 "waiting", true)) := by
  constructor
  · exact (c7_get_ready ⟨1, [1], [], [⟨"bad", "string", none, some 1, "{% nosuch %}"⟩]⟩
      (initSt ⟨1, [1], [], [⟨"bad", "string", none, some 1, "{% nosuch %}"⟩]⟩) 1
      ⟨"idle", 0, 0, 0⟩ (by decide)).2.1 (by decide)
  · exact (c7_get_ready ⟨1, [1], [], []⟩ (initSt ⟨1, [1], [], []⟩) 1
      ⟨"idle", 0, 0, 0⟩ (by decide)).2.2 (by decide) (by decide)

/-! ## Claim C3: worker fan-in accounting -/

theorem cascadeFuel_pos (cfg : Config) (st : St) : cascadeFuel cfg st ≠ 0 := by
  unfold cascadeFuel
  positivity

/-- C3: on a running job each callback increments its counter; while
the incremented sum stays below `enqueued_workers_count` the job
merely persists the counters (status stays `running`); the callback
that makes the sum reach `enqueued_workers_count` finalizes: status
becomes `succeeded` iff it is `worker_succeeded` and no worker failed,
otherwise `failed`, with the counters as incremented.  In particular
with three enqueued workers, two successes leave the job running and
the third, failing, callback turns it `failed`. -/
theorem c3_worker_accounting :
    (∀ (cfg : Config) (st : St) (j : Nat) (js : JobState),
      lookupJob st j = some js →
      js.succeededW + 1 + js.failedW < js.enqueued →
      workerSucceeded cfg st j =
        .ok (updJob st j (fun k => { k with succeededW := k.succeededW + 1 })) ()) ∧
    (∀ (cfg : Config) (st : St) (j : Nat) (js : JobState),
      lookupJob st j = some js →
      js.succeededW + (js.failedW + 1) < js.enqueued →
      workerFailed cfg st j =
        .ok (updJob st j (fun k => { k with failedW := k.failedW + 1 })) ()) ∧
    (∀ (cfg : Config) (st : St) (j : Nat) (js : JobState),
      WFC cfg st → GoodW cfg st →
      lookupJob st j = some js → js.status = "running" →
      js.succeededW + 1 + js.failedW = js.enqueued →
      ∃ st', workerSucceeded cfg st j = .ok st' () ∧
        lookupJob st' j = some ⟨if js.failedW = 0 then "succeeded" else "failed",
          js.enqueued, js.succeededW + 1, js.failedW⟩) ∧
    (∀ (cfg : Config) (st : St) (j : Nat) (js : JobState),
      WFC cfg st → GoodW cfg st →
      lookupJob st j = some js → js.status = "running" →
      js.succeededW + (js.failedW + 1) = js.enqueued →
      ∃ st', workerFailed cfg st j = .ok st' () ∧
        lookupJob st' j = some ⟨"failed",
          js.enqueued, js.succeededW, js.failedW + 1⟩) ∧
    (lookupJob (workerSucceeded ⟨1, [1], [], []⟩
        ⟨"running", [(1, ⟨"running", 3, 0, 0⟩)], [], 0, 0⟩ 1).state 1 =
        some ⟨"running", 3, 1, 0⟩ ∧
      lookupJob (workerSucceeded ⟨1, [1], [], []⟩
        (workerSucceeded ⟨1, [1], [], []⟩
          ⟨"running", [(1, ⟨"running", 3, 0, 0⟩)], [], 0, 0⟩ 1).state 1).state 1 =
        some ⟨"running", 3, 2, 0⟩ ∧
      lookupJob (workerFailed ⟨1, [1], [], []⟩
        (workerSucceeded ⟨1, [1], [], []⟩
          (workerSucceeded ⟨1, [1], [], []⟩
            ⟨"running", [(1, ⟨"running", 3, 0, 0⟩)], [], 0, 0⟩ 1).state 1).state
        1).state 1 = some ⟨"failed", 3, 2, 1⟩) := by
  refine ⟨?_, ?_, ?_, ?_, by decide⟩
  · intro cfg st j js hl hlt
    have hunfold : workerSucceeded cfg st j =
        (if js.succeededW + 1 + js.failedW ≥ js.enqueued then
          sdjF (cascadeFuel cfg (setStatus (updJob st j
            (fun k => { k with succeededW := k.succeededW + 1 })) j
            (if js.failedW < 1 then "succeeded" else "failed"))) cfg
            (setStatus (updJob st j
              (fun k => { k with succeededW := k.succeededW + 1 })) j
              (if js.failedW < 1 then "succeeded" else "failed")) j
        else .ok (updJob st j
          (fun k => { k with succeededW := k.succeededW + 1 })) ()) := by
      unfold workerSucceeded
      rw [hl]
    rw [hunfold, if_neg (by omega)]
  · intro cfg st j js hl hlt
    have hunfold : workerFailed cfg st j =
        (if js.succeededW + (js.failedW + 1) ≥ js.enqueued then
          sdjF (cascadeFuel cfg (setStatus (updJob st j
            (fun k => { k with failedW := k.failedW + 1 })) j "failed")) cfg
            (setStatus (updJob st j
              (fun k => { k with failedW := k.failedW + 1 })) j "failed") j
        else .ok (updJob st j
          (fun k => { k with failedW := k.failedW + 1 })) ()) := by
      unfold workerFailed
      rw [hl]
    rw [hunfold, if_neg (by omega)]
  · intro cfg st j js hwfc hg hl hrun heq
    set f1 : JobState → JobState :=
      fun k => { k with succeededW := k.succeededW + 1 } with hf1
    set news : String := if js.failedW < 1 then "succeeded" else "failed" with hnews
    set st2 : St := setStatus (updJob st j f1) j news with hst2
    have hunfold : workerSucceeded cfg st j =
        (if js.succeededW + 1 + js.failedW ≥ js.enqueued then
          sdjF (cascadeFuel cfg st2) cfg st2 j
        else .ok (updJob st j f1) ()) := by
      unfold workerSucceeded
      rw [hl]
    rw [hunfold, if_pos (by omega)]
    have hnw : news ≠ "waiting" := by
      rw [hnews]
      by_cases hz : js.failedW < 1
      · rw [if_pos hz]; decide
      · rw [if_neg hz]; decide
    have hl2 : lookupJob st2 j = some ⟨news, js.enqueued,
        js.succeededW + 1, js.failedW⟩ := by
      rw [hst2]
      unfold setStatus
      rw [lookupJob_updJob, if_pos rfl, lookupJob_updJob, if_pos rfl, hl]
      rfl
    have hwfc2 : WFC cfg st2 := WFC_of_ids hwfc
      (by rw [hst2]; unfold setStatus; rw [jobIdsOf_updJob, jobIdsOf_updJob])
    have hg2 : GoodW cfg st2 := by
      rw [hst2]
      unfold setStatus
      exact GoodW_updJob (fun s => Or.inr hnw)
        (GoodW_updJob (fun s => Or.inl rfl) hg)
    obtain ⟨k, hk⟩ := Nat.exists_eq_succ_of_ne_zero (cascadeFuel_pos cfg st2)
    rw [hk]
    obtain ⟨st', hok, hfr, _, _, _, _⟩ := sdjF_ok_spec k hwfc2 hg2
    refine ⟨st', hok, ?_⟩
    have := hfr.1 j _ hl2 (by simpa using hnw)
    rw [this]
    congr 1
    rw [hnews]
    by_cases hz : js.failedW < 1
    · rw [if_pos hz, if_pos (by omega)]
    · rw [if_neg hz, if_neg (by omega)]
  · intro cfg st j js hwfc hg hl hrun heq
    set f1 : JobState → JobState :=
      fun k => { k with failedW := k.failedW + 1 } with hf1
    set st2 : St := setStatus (updJob st j f1) j "failed" with hst2
    have hunfold : workerFailed cfg st j =
        (if js.succeededW + (js.failedW + 1) ≥ js.enqueued then
          sdjF (cascadeFuel cfg st2) cfg st2 j
        else .ok (updJob st j f1) ()) := by
      unfold workerFailed
      rw [hl]
    rw [hunfold, if_pos (by omega)]
    have hl2 : lookupJob st2 j = some ⟨"failed", js.enqueued,
        js.succeededW, js.failedW + 1⟩ := by
      rw [hst2]
      unfold setStatus
      rw [lookupJob_updJob, if_pos rfl, lookupJob_updJob, if_pos rfl, hl]
      rfl
    have hwfc2 : WFC cfg st2 := WFC_of_ids hwfc
      (by rw [hst2]; unfold setStatus; rw [jobIdsOf_updJob, jobIdsOf_updJob])
    have hg2 : GoodW cfg st2 := by
      rw [hst2]
      unfold setStatus
      exact GoodW_updJob (fun s => Or.inr (by simp))
        (GoodW_updJob (fun s => Or.inl rfl) hg)
    obtain ⟨k, hk⟩ := Nat.exists_eq_succ_of_ne_zero (cascadeFuel_pos cfg st2)
    rw [hk]
    obtain ⟨st', hok, hfr, _, _, _, _⟩ := sdjF_ok_spec k hwfc2 hg2
    refine ⟨st', hok, ?_⟩
    have := hfr.1 j _ hl2 (by simp)
    rw [this]

/-- C3 witness: the finalizing success callback applied to a concrete
single-worker running job. -/
theorem c3_worker_accounting_witness :
    ∃ st', workerSucceeded ⟨1, [1], [], []⟩
        ⟨"running", [(1, ⟨"running", 1, 0, 0⟩)], [], 0, 0⟩ 1 = .ok st' () ∧
      lookupJob st' 1 = some ⟨"succeeded", 1, 1, 0⟩ := by
  obtain ⟨st', hok, hlook⟩ := c3_worker_accounting.2.2.1 ⟨1, [1], [], []⟩
    ⟨"running", [(1, ⟨"running", 1, 0, 0⟩)], [], 0, 0⟩ 1 ⟨"running", 1, 0, 0⟩
    (by intro c hc; simp at hc) (by intro e he hw; simp at he; rw [he] at hw; simp at hw)
    (by decide) (by decide) (by decide)
  exact ⟨st', hok, hlook⟩

/-! ## Claims C4 and C9: edge semantics of Job.start -/

theorem startF_succ (fuel : Nat) (cfg : Config) (st : St) (j : Nat) :
    startF (fuel + 1) cfg st j =
      match lookupJob st j with
      | none => .ok st false
      | some js =>
        if js.status = "waiting" then
          condLoop fuel cfg st j (cfg.conds.filter (fun c => c.job_id == j))
        else .ok st false := rfl

theorem condLoop_nil (fuel : Nat) (cfg : Config) (st : St) (j : Nat) :
    condLoop (fuel + 1) cfg st j [] =
      match jobRun cfg st j with
      | .exn st' => .exn st'
      | .ok st' _ => .ok st' true := rfl

theorem condLoop_cons (fuel : Nat) (cfg : Config) (st : St) (j : Nat)
    (c : SCond) (rest : List SCond) :
    condLoop (fuel + 1) cfg st j (c :: rest) =
      match (lookupJob st c.preceding_job_id).map (fun s : JobState => s.status) with
      | none => .exn st
      | some ps =>
        if c.condition = "success" then
          if ps ≠ "succeeded" then
            if ps = "failed" then
              match sdjF fuel cfg (setStatus st j "failed") j with
              | .exn st' => .exn st'
              | .ok st' _ => .ok st' false
            else .ok st false
          else condLoop fuel cfg st j rest
        else if c.condition = "fail" then
          if ps ≠ "failed" then
            if ps = "succeeded" then
              match sdjF fuel cfg (setStatus st j "failed") j with
              | .exn st' => .exn st'
              | .ok st' _ => .ok st' false
            else .ok st false
          else condLoop fuel cfg st j rest
        else if c.condition = "whatever" then
          if ps ∉ ["succeeded", "failed"] then .ok st false
          else condLoop fuel cfg st j rest
        else condLoop fuel cfg st j rest := rfl

theorem cascadeFuel_ge8 (cfg : Config) (st : St) : 8 ≤ cascadeFuel cfg st := by
  unfold cascadeFuel
  calc 8 = 2 * 4 := rfl
    _ ≤ (st.jobs.length + 2) * (2 * cfg.conds.length + 4) :=
      Nat.mul_le_mul (by omega) (by omega)

/-- C4: for a waiting job `J` whose incoming edges are exactly one
`success` edge from `P` (under referential integrity and resolvable
params of waiting jobs): if `P` succeeded the edge does not block and
`J.start()` proceeds to `run` (resetting counters, going `running`,
enqueuing one worker, returning `True`); if `P` failed, `J.start()`
sets `J` to `failed`, enters `_start_dependent_jobs` (ghost log) and
notifies the pipeline (`job_finished` count), returning `False`; if
`P` is in any non-terminal status, `J.start()` returns `False` with
the state unchanged. -/
theorem c4_success_edge :
    ∀ (cfg : Config) (st : St) (J P : Nat) (sJ sP : JobState),
      WFC cfg st → GoodW cfg st →
      lookupJob st J = some sJ → sJ.status = "waiting" →
      lookupJob st P = some sP →
      cfg.conds.filter (fun c => c.job_id == J) = [⟨J, P, "success"⟩] →
      ((sP.status = "succeeded" →
        startJob cfg st J = .ok (enqueue (updJob st J (fun js =>
          { js with enqueued := 0, succeededW := 0, failedW := 0, status := "running" })) J).1 true) ∧
       (sP.status = "failed" → ∃ st', startJob cfg st J = .ok st' false ∧
          lookupJob st' J = some { sJ with status := "failed" } ∧
          (∃ t, st'.sdjLog = st.sdjLog ++ [J] ++ t) ∧
          st.jfCount + 1 ≤ st'.jfCount) ∧
       (sP.status ∈ ["idle", "waiting", "running", "stopping"] →
          startJob cfg st J = .ok st false)) := by
  intro cfg st J P sJ sP hwfc hg hlJ hwJ hlP hfilter
  have h8 := cascadeFuel_ge8 cfg st
  obtain ⟨k, hk⟩ : ∃ k, cascadeFuel cfg st = ((k + 1) + 1) + 1 :=
    ⟨cascadeFuel cfg st - 3, by omega⟩
  have hres : resolveOk cfg J = true := resolveOk_of_goodW hg hlJ hwJ
  have hstart : startJob cfg st J =
      condLoop ((k + 1) + 1) cfg st J [⟨J, P, "success"⟩] := by
    unfold startJob
    rw [hk, startF_succ, hlJ]
    show (if sJ.status = "waiting" then
        condLoop ((k + 1) + 1) cfg st J (cfg.conds.filter (fun c => c.job_id == J))
      else (Out.ok st false : Out Bool)) = _
    rw [if_pos hwJ, hfilter]
  have hchain : startJob cfg st J =
      (if sP.status ≠ "succeeded" then
        if sP.status = "failed" then
          match sdjF (k + 1) cfg (setStatus st J "failed") J with
          | .exn st' => (Out.exn st' : Out Bool)
          | .ok st' _ => .ok st' false
        else .ok st false
      else condLoop (k + 1) cfg st J []) := by
    rw [hstart, condLoop_cons]
    show (match (lookupJob st P).map (fun s : JobState => s.status) with
      | none => (Out.exn st : Out Bool)
      | some ps =>
        if ps ≠ "succeeded" then
          if ps = "failed" then
            match sdjF (k + 1) cfg (setStatus st J "failed") J with
            | .exn st' => .exn st'
            | .ok st' _ => .ok st' false
          else .ok st false
        else condLoop (k + 1) cfg st J []) = _
    rw [hlP]
    simp only [Option.map_some']
  refine ⟨?_, ?_, ?_⟩
  · intro hsucc
    rw [hchain, hsucc, if_neg (by simp), condLoop_nil, jobRun_ok hres]
  · intro hfail
    rw [hchain, hfail, if_pos (by simp), if_pos rfl]
    have hl2 : lookupJob (setStatus st J "failed") J =
        some { sJ with status := "failed" } := by
      unfold setStatus
      rw [lookupJob_updJob, if_pos rfl, hlJ]
      rfl
    have hwfc2 : WFC cfg (setStatus st J "failed") :=
      WFC_of_ids hwfc (jobIdsOf_updJob ..)
    have hg2 : GoodW cfg (setStatus st J "failed") :=
      GoodW_updJob (fun s => Or.inr (by simp)) hg
    obtain ⟨st', hok, hfr, ⟨t, hlog⟩, hjf, _, _⟩ := sdjF_ok_spec k hwfc2 hg2
    rw [hok]
    refine ⟨st', rfl, ?_, ⟨t, ?_⟩, ?_⟩
    · exact hfr.1 J _ hl2 (by simp)
    · rw [hlog]
      have : (setStatus st J "failed").sdjLog = st.sdjLog := by
        simp [setStatus, updJob]
      rw [this]
    · have : (setStatus st J "failed").jfCount = st.jfCount := by
        simp [setStatus, updJob]
      omega
  · intro hblock
    have h1 : ¬sP.status = "succeeded" := by
      simp only [List.mem_cons, List.not_mem_nil, or_false] at hblock
      rcases hblock with h | h | h | h <;> rw [h] <;> decide
    have h2 : ¬sP.status = "failed" := by
      simp only [List.mem_cons, List.not_mem_nil, or_false] at hblock
      rcases hblock with h | h | h | h <;> rw [h] <;> decide
    rw [hchain, if_pos (by simpa using h1), if_neg h2]

/-- C4 witness: the hard-fail case at a concrete two-job pipeline. -/
theorem c4_success_edge_witness :
    ∃ st', startJob ⟨1, [1, 2], [⟨2, 1, "success"⟩], []⟩
        ⟨"running", [(1, ⟨"failed", 1, 0, 1⟩), (2, ⟨"waiting", 0, 0, 0⟩)], [], 0, 0⟩ 2 =
        .ok st' false ∧
      lookupJob st' 2 = some ⟨"failed", 0, 0, 0⟩ ∧
      (∃ t, st'.sdjLog = [] ++ [2] ++ t) ∧ 0 + 1 ≤ st'.jfCount := by
  obtain ⟨hsucc, hfail, hblock⟩ := c4_success_edge
    ⟨1, [1, 2], [⟨2, 1, "success"⟩], []⟩
    ⟨"running", [(1, ⟨"failed", 1, 0, 1⟩), (2, ⟨"waiting", 0, 0, 0⟩)], [], 0, 0⟩
    2 1 ⟨"waiting", 0, 0, 0⟩ ⟨"failed", 1, 0, 1⟩
    (by intro c hc; simp at hc; rw [hc]; decide)
    (by intro e he hw
        simp at he
        rcases he with he | he
        · rw [he] at hw; simp at hw
        · rw [he]; decide)
    (by decide) (by decide) (by decide) (by decide)
  obtain ⟨st', hok, hlook, hlog, hjf⟩ := hfail (by decide)
  exact ⟨st', hok, hlook, hlog, hjf⟩

/-- C9: for a waiting job `J` whose incoming edges are exactly one
`whatever` edge from `P` (with resolvable params), `J.start()` is
blocked — returning `False` with the state unchanged — exactly while
`P` is outside succeeded/failed; once `P` is terminal the edge never
blocks and `J` proceeds to `run` (ending `running` with one enqueued
worker, never `failed`), whichever terminal status `P` has; and a
waiting job with no incoming edges is never gated: its `start()`
always proceeds to `run`. -/
theorem c9_whatever_edge :
    (∀ (cfg : Config) (st : St) (J P : Nat) (sJ sP : JobState),
      lookupJob st J = some sJ → sJ.status = "waiting" →
      lookupJob st P = some sP →
      resolveOk cfg J = true →
      cfg.conds.filter (fun c => c.job_id == J) = [⟨J, P, "whatever"⟩] →
      ((sP.status ∉ ["succeeded", "failed"] → startJob cfg st J = .ok st false) ∧
       (sP.status ∈ ["succeeded", "failed"] →
         startJob cfg st J = .ok (enqueue (updJob st J (fun js =>
           { js with enqueued := 0, succeededW := 0, failedW := 0, status := "running" })) J).1 true ∧
         lookupJob (startJob cfg st J).state J = some ⟨"running", 1, 0, 0⟩))) ∧
    (∀ (cfg : Config) (st : St) (J : Nat) (sJ : JobState),
      lookupJob st J = some sJ → sJ.status = "waiting" →
      resolveOk cfg J = true →
      cfg.conds.filter (fun c => c.job_id == J) = [] →
      startJob cfg st J = .ok (enqueue (updJob st J (fun js =>
        { js with enqueued := 0, succeededW := 0, failedW := 0, status := "running" })) J).1 true) := by
  constructor
  · intro cfg st J P sJ sP hlJ hwJ hlP hres hfilter
    have h8 := cascadeFuel_ge8 cfg st
    obtain ⟨k, hk⟩ : ∃ k, cascadeFuel cfg st = ((k + 1) + 1) + 1 :=
      ⟨cascadeFuel cfg st - 3, by omega⟩
    have hstart : startJob cfg st J =
        condLoop ((k + 1) + 1) cfg st J [⟨J, P, "whatever"⟩] := by
      unfold startJob
      rw [hk, startF_succ, hlJ]
      show (if sJ.status = "waiting" then
          condLoop ((k + 1) + 1) cfg st J (cfg.conds.filter (fun c => c.job_id == J))
        else (Out.ok st false : Out Bool)) = _
      rw [if_pos hwJ, hfilter]
    have hchain : startJob cfg st J =
        (if sP.status ∉ ["succeeded", "failed"] then .ok st false
        else condLoop (k + 1) cfg st J []) := by
      rw [hstart, condLoop_cons]
      show (match (lookupJob st P).map (fun s : JobState => s.status) with
        | none => (Out.exn st : Out Bool)
        | some ps =>
          if ps ∉ ["succeeded", "failed"] then .ok st false
          else condLoop (k + 1) cfg st J []) = _
      rw [hlP]
      simp only [Option.map_some']
    have hrun : ∀ (u : Unit), condLoop (k + 1) cfg st J [] =
        .ok (enqueue (updJob st J (fun js =>
          { js with enqueued := 0, succeededW := 0, failedW := 0, status := "running" })) J).1 true := by
      intro _
      rw [condLoop_nil, jobRun_ok hres]
    constructor
    · intro hblock
      rw [hchain, if_pos hblock]
    · intro hmem
      have heq : startJob cfg st J = .ok (enqueue (updJob st J (fun js =>
          { js with enqueued := 0, succeededW := 0, failedW := 0, status := "running" })) J).1 true := by
        rw [hchain, if_neg (not_not_intro hmem), hrun ()]
      refine ⟨heq, ?_⟩
      rw [heq]
      show lookupJob (enqueue (updJob st J (fun js =>
        { js with enqueued := 0, succeededW := 0, failedW := 0, status := "running" })) J).1 J =
        some ⟨"running", 1, 0, 0⟩
      have hl1 : lookupJob (updJob st J (fun js =>
          { js with enqueued := 0, succeededW := 0, failedW := 0, status := "running" })) J =
          some ⟨"running", 0, 0, 0⟩ := by
        rw [lookupJob_updJob, if_pos rfl, hlJ]
        rfl
      rw [enqueue_fst_some hl1, if_pos rfl, lookupJob_updJob, if_pos rfl, hl1]
      rfl
  · intro cfg st J sJ hlJ hwJ hres hfilter
    have h8 := cascadeFuel_ge8 cfg st
    obtain ⟨k, hk⟩ : ∃ k, cascadeFuel cfg st = ((k + 1) + 1) + 1 :=
      ⟨cascadeFuel cfg st - 3, by omega⟩
    unfold startJob
    rw [hk, startF_succ, hlJ]
    show (if sJ.status = "waiting" then
        condLoop ((k + 1) + 1) cfg st J (cfg.conds.filter (fun c => c.job_id == J))
      else (Out.ok st false : Out Bool)) = _
    rw [if_pos hwJ, hfilter, condLoop_nil, jobRun_ok hres]

/-- C9 witness: a `whatever` edge with a failed predecessor releases
the dependent job, which ends up `running` with one worker enqueued. -/
theorem c9_whatever_edge_witness :
    startJob ⟨1, [1, 2], [⟨2, 1, "whatever"⟩], []⟩
      ⟨"running", [(1, ⟨"failed", 1, 0, 1⟩), (2, ⟨"waiting", 0, 0, 0⟩)], [], 0, 0⟩ 2 =
      .ok ⟨"running", [(1, ⟨"failed", 1, 0, 1⟩), (2, ⟨"running", 1, 0, 0⟩)], [], 0, 0⟩ true ∧
    lookupJob (startJob ⟨1, [1, 2], [⟨2, 1, "whatever"⟩], []⟩
      ⟨"running", [(1, ⟨"failed", 1, 0, 1⟩), (2, ⟨"waiting", 0, 0, 0⟩)], [], 0, 0⟩ 2).state 2 =
      some ⟨"running", 1, 0, 0⟩ := by
  obtain ⟨hwhat, hzero⟩ := c9_whatever_edge
  obtain ⟨heq, hlook⟩ := (hwhat ⟨1, [1, 2], [⟨2, 1, "whatever"⟩], []⟩
    ⟨"running", [(1, ⟨"failed", 1, 0, 1⟩), (2, ⟨"waiting", 0, 0, 0⟩)], [], 0, 0⟩
    2 1 ⟨"waiting", 0, 0, 0⟩ ⟨"failed", 1, 0, 1⟩
    (by decide) (by decide) (by decide) (by decide) (by decide)).2 (by decide)
  refine ⟨?_, hlook⟩
  rw [heq]
  decide

/-! ## Claim C1: which jobs decide the finalization status -/

/-- Two jobs `1 → 2` joined by a `whatever` edge. -/
def c1Cfg : Config := ⟨1, [1, 2], [⟨2, 1, "whatever"⟩], []⟩

/-- The run: start the pipeline, job 1's worker fails, job 2 (released
by the `whatever` edge) runs and its worker succeeds; the second
callback finalizes the pipeline through `job_finished`. -/
def c1Final : St :=
  (workerSucceeded c1Cfg
    (workerFailed c1Cfg (pipelineStart c1Cfg (initSt c1Cfg)).state 1).state 2).state

/-- C1 counterexample.  Job 1 is a root job in the claim's sense — it
is the `job_id` of no StartCondition, so it has no incoming edges —
and it has status `failed` when the pipeline finalizes (the
finalization was reached: one notification was sent, via
`job_finished`).  The claim requires the pipeline status `failed`; the
code sets `succeeded`, because `_finish`'s outer join keys on
`preceding_job_id` and therefore consults the jobs with no *outgoing*
edges (here job 2, which succeeded), not the root jobs. -/
theorem c1_counterexample :
    c1Final.pstatus = "succeeded" ∧
    lookupJob c1Final 1 = some ⟨"failed", 1, 0, 1⟩ ∧
    c1Cfg.conds.filter (fun c => c.job_id == 1) = [] ∧
    c1Final.notifCount = 1 := by
  decide

/-- C1 amended: `Pipeline._finish` sets the pipeline status to
`failed` iff some job of the pipeline with no *outgoing*
StartCondition edge (a job that is the `preceding_job` of no edge, so
no other job depends on it) has status `failed`, and to `succeeded`
otherwise; only those no-outgoing-edge jobs are consulted. -/
theorem c1_amended (cfg : Config) (st : St) :
    ((finishP cfg st).pstatus = "failed" ↔
      ∃ e ∈ st.jobs,
        (¬ ∃ c ∈ cfg.conds, c.preceding_job_id = e.1) ∧ e.2.status = "failed") ∧
    ((finishP cfg st).pstatus = "failed" ∨ (finishP cfg st).pstatus = "succeeded") := by
  have hp : (finishP cfg st).pstatus =
      if (st.jobs.filter
        (fun e => !(cfg.conds.any (fun c => c.preceding_job_id == e.1)))).any
        (fun e => e.2.status == "failed")
      then "failed" else "succeeded" := by
    unfold finishP
    by_cases h : (st.jobs.filter
        (fun e => !(cfg.conds.any (fun c => c.preceding_job_id == e.1)))).any
        (fun e => e.2.status == "failed") <;> simp [h]
  have hiff : ((st.jobs.filter
        (fun e => !(cfg.conds.any (fun c => c.preceding_job_id == e.1)))).any
        (fun e => e.2.status == "failed") = true) ↔
      (∃ e ∈ st.jobs,
        (¬ ∃ c ∈ cfg.conds, c.preceding_job_id = e.1) ∧ e.2.status = "failed") := by
    simp [List.any_eq_true, List.mem_filter]
  constructor
  · rw [hp]
    by_cases h : (st.jobs.filter
        (fun e => !(cfg.conds.any (fun c => c.preceding_job_id == e.1)))).any
        (fun e => e.2.status == "failed")
    · rw [if_pos h]
      exact iff_of_true rfl (hiff.mp h)
    · rw [if_neg h]
      exact iff_of_false (by decide) (fun hex => h (hiff.mpr hex))
  · rw [hp]
    by_cases h : (st.jobs.filter
        (fun e => !(cfg.conds.any (fun c => c.preceding_job_id == e.1)))).any
        (fun e => e.2.status == "failed")
    · left; rw [if_pos h]
    · right; rw [if_neg h]

/-! ## Claim C2: duplicate completion callbacks after finalization -/

def c2Cfg : Config := ⟨1, [1], [], []⟩

/-- State after the pipeline started and the single worker's success
callback arrived once: the job has finalized. -/
def c2Once : St :=
  (workerSucceeded c2Cfg (pipelineStart c2Cfg (initSt c2Cfg)).state 1).state

/-- State after a duplicate delivery of the same callback. -/
def c2Twice : St := (workerSucceeded c2Cfg c2Once 1).state

/-- C2: evaluation at the failing input.  After the job finalized
(status `succeeded`, `finished_workers_count = enqueued_workers_count
= 1`, one `_start_dependent_jobs` entry, one notification), a
duplicate `worker_succeeded` increments the counter to 2, re-enters
the `finished ≥ enqueued` branch, and runs `_start_dependent_jobs` and
the pipeline finalization a second time: the ghost log shows two
cascade entries and two finished-pipeline notifications.  The code has
no status guard, so the cascade is not exactly-once as the spec
requires. -/
theorem c2_code_bug_eval :
    lookupJob c2Once 1 = some ⟨"succeeded", 1, 1, 0⟩ ∧
    c2Once.sdjLog = [1] ∧ c2Once.notifCount = 1 ∧
    c2Twice.sdjLog = [1, 1] ∧ c2Twice.notifCount = 2 := by
  decide

/-! ## Claim C8: type coercion of `Param.val` -/

/-- Projection extracting a float result (used because `PVal` carries
a nested list and has no derivable decidable equality). -/
def floatVal : Except ResErr PVal → Option Rat
  | .ok (.float q) => some q
  | _ => none

/-- C8: `Param.val` coerces the expanded text by type: `number` parses
as integer, else float, else yields integer 0 — so `"abc"` resolves to
`0` and `"3.5"` to the float `3.5` (= 7/2 exactly); `string` with
stored value `"\x7b% 2+2 %\x7d"` resolves to the text `"4"`;
`string_list` splits the expanded text on newlines keeping blank
lines; `number_list` splits on newlines, drops blank lines and
numeric-coerces each remaining line by the same total rule.  The
concrete stored values are stated on global-scope params (scope only
changes the namespace, and these values contain no name reference);
the list rules are stated for any scope whose namespace and expansion
succeed. -/
theorem c8_type_coercion :
    (∀ (db : ParamDb) (p : Param), p.pipeline_id = none → p.job_id = none →
      p.type = "number" → p.value = "abc" → Param.val db p = .ok (.int 0)) ∧
    (∀ (db : ParamDb) (p : Param), p.pipeline_id = none → p.job_id = none →
      p.type = "number" → p.value = "3.5" →
      floatVal (Param.val db p) = some (7 / 2)) ∧
    (∀ (db : ParamDb) (p : Param), p.pipeline_id = none → p.job_id = none →
      p.type = "string" → p.value = "{% 2+2 %}" →
      Param.val db p = .ok (.str "4")) ∧
    (∀ (db : ParamDb) (p : Param) (ns : List (String × PVal)) (t : List Char),
      p.type = "string_list" → valNames db p = .ok ns →
      expandSpans ns p.value.data = .ok t →
      Param.val db p = .ok (.list ((splitNl t).map (fun s => .str ⟨s⟩)))) ∧
    (∀ (db : ParamDb) (p : Param) (ns : List (String × PVal)) (t : List Char),
      p.type = "number_list" → valNames db p = .ok ns →
      expandSpans ns p.value.data = .ok t →
      Param.val db p = .ok (.list (((splitNl t).filter
        (fun s => s.any (fun c => !c.isWhitespace))).map parseNumL))) := by
  refine ⟨?_, ?_, ?_, ?_, ?_⟩
  · intro db p h1 h2 hty hval
    rw [val_unfold, valNames_global db p h1 h2, hty, hval]
    rfl
  · intro db p h1 h2 hty hval
    rw [val_unfold, valNames_global db p h1 h2, hty, hval]
    have h72 : (7 : ℚ) / 2 = mkRat 7 2 := by
      rw [Rat.mkRat_eq_divInt, Rat.divInt_eq_div]
      norm_num
    rw [h72]
    decide
  · intro db p h1 h2 hty hval
    rw [val_unfold, valNames_global db p h1 h2, hty, hval]
    rfl
  · intro db p ns t hty hns ht
    rw [val_unfold]
    simp [hty, hns, ht]
  · intro db p ns t hty hns ht
    rw [val_unfold]
    simp [hty, hns, ht]

/-- C8 witness: the theorem applied at concrete inputs. -/
theorem c8_type_coercion_witness :
    Param.val ⟨[], []⟩ ⟨"p", "number", none, none, "abc"⟩ = .ok (.int 0) ∧
    floatVal (Param.val ⟨[], []⟩ ⟨"p", "number", none, none, "3.5"⟩) =
      some (7 / 2) ∧
    Param.val ⟨[], []⟩ ⟨"p", "string", none, none, "{% 2+2 %}"⟩ =
      .ok (.str "4") ∧
    Param.val ⟨[], []⟩ ⟨"p", "string_list", none, none, "a\n\nb"⟩ =
      .ok (.list [.str "a", .str "", .str "b"]) ∧
    Param.val ⟨[], []⟩ ⟨"p", "number_list", none, none, "1\n \n2"⟩ =
      .ok (.list [.int 1, .int 2]) := by
  obtain ⟨h1, h2, h3, h4, h5⟩ := c8_type_coercion
  refine ⟨h1 ⟨[], []⟩ _ rfl rfl rfl rfl, h2 ⟨[], []⟩ _ rfl rfl rfl rfl,
    h3 ⟨[], []⟩ _ rfl rfl rfl rfl, ?_, ?_⟩
  · rw [h4 ⟨[], []⟩ ⟨"p", "string_list", none, none, "a\n\nb"⟩ baseNames
      "a\n\nb".data rfl (valNames_global _ _ rfl rfl) rfl]
    rfl
  · rw [h5 ⟨[], []⟩ ⟨"p", "number_list", none, none, "1\n \n2"⟩ baseNames
      "1\n \n2".data rfl (valNames_global _ _ rfl rfl) rfl]
    rfl

/-! ## Claims C6 and C10: the scoped namespace of `_expand_vars` -/

theorem isPrefixOf_self (l : List Char) : l.isPrefixOf l = true := by
  induction l with
  | nil => rfl
  | cons c cs ih =>
    show (c == c && cs.isPrefixOf cs) = true
    simp [ih]

/-- Replacing the whole text by `sub` yields `sub`. -/
theorem replaceAll_self (v sub : List Char) (h : v ≠ []) :
    replaceAll v v sub = sub := by
  cases v with
  | nil => exact absurd rfl h
  | cons c cs =>
    show replaceAllF (cs.length + 1 + 1) (c :: cs) (c :: cs) sub = sub
    have hstep : replaceAllF (cs.length + 1 + 1) (c :: cs) (c :: cs) sub =
        sub ++ replaceAllF (cs.length + 1) ((c :: cs).drop (c :: cs).length)
          (c :: cs) sub := by
      show (if (c :: cs) ≠ [] ∧ (c :: cs).isPrefixOf (c :: cs) then
          sub ++ replaceAllF (cs.length + 1) ((c :: cs).drop (c :: cs).length)
            (c :: cs) sub
        else c :: replaceAllF (cs.length + 1) cs (c :: cs) sub) = _
      rw [if_pos ⟨by simp, isPrefixOf_self _⟩]
    rw [hstep, List.drop_length]
    show sub ++ ([] : List Char) = sub
    simp

/-- Evaluating a value that is exactly one inline span whose body is
the single identifier `x`: the result is the stringified looked-up
value, or `NameNotDefined` when `x` is not in the namespace. -/
theorem expandSpans_single (ns : List (String × PVal)) (v : List Char) (x : String)
    (hspan : findInliners v = [v])
    (htok : lexSE (stripDelims v) = some [SETok.ident x]) (hv : v ≠ []) :
    expandSpans ns v =
      match lookupName ns x with
      | some r => .ok (pvalStr r).data
      | none => .error .invalidExpression := by
  unfold expandSpans
  rw [hspan]
  show ((match simpleEval (stripDelims v) ns with
    | .error e => .error e
    | .ok r => expandLoop ns [] (replaceAll v v (pvalStr r).data) :
      Except ResErr (List Char))) = _
  have hse : simpleEval (stripDelims v) ns =
      match lookupName ns x with
      | some r => .ok r
      | none => .error .invalidExpression := by
    unfold simpleEval
    rw [htok]
    show ((match evalAtom ns (SETok.ident x) with
      | .error e => .error e
      | .ok r => .ok r : Except ResErr PVal)) = _
    unfold evalAtom
    show ((match (match lookupName ns x with
        | some v => Except.ok v
        | none => Except.error ResErr.invalidExpression : Except ResErr PVal) with
      | .error e => .error e
      | .ok r => .ok r : Except ResErr PVal)) = _
    cases hlook : lookupName ns x with
    | none => rfl
    | some r => rfl
  rw [hse]
  cases hlook : lookupName ns x with
  | none => rfl
  | some r =>
    show expandLoop ns [] (replaceAll v v (pvalStr r).data) = _
    unfold expandLoop
    rw [replaceAll_self v _ hv]

/-- `Param.val` on a `string`-typed param whose value is one
identifier span, given the built namespace. -/
theorem val_string_span (db : ParamDb) (p : Param) (x : String)
    (ns : List (String × PVal)) (hty : p.type = "string")
    (hns : valNames db p = .ok ns)
    (hspan : findInliners p.value.data = [p.value.data])
    (htok : lexSE (stripDelims p.value.data) = some [SETok.ident x])
    (hv : p.value.data ≠ []) :
    Param.val db p =
      match lookupName ns x with
      | some r => .ok (.str (pvalStr r))
      | none => .error .invalidExpression := by
  rw [val_unfold, hty, if_neg (by decide), hns]
  show ((match expandSpans ns p.value.data with
    | .error e => .error e
    | .ok v =>
      if "string" = "number" then .ok (parseNumL v)
      else if "string" = "string_list" then
        .ok (.list ((splitNl v).map (fun s => .str ⟨s⟩)))
      else if "string" = "number_list" then
        .ok (.list (((splitNl v).filter
          (fun s => s.any (fun c => !c.isWhitespace))).map parseNumL))
      else .ok (.str ⟨v⟩) : Except ResErr PVal)) = _
  rw [expandSpans_single ns _ x hspan htok hv]
  cases hlook : lookupName ns x with
  | none => rfl
  | some r => rfl


/-- Folding params none of which carries the looked-up name leaves
that name's binding unchanged. -/
theorem addParams_lookup_none (db : ParamDb) :
    ∀ (l : List Param) (fuel : Nat) (ns out : List (String × PVal)) (x : String),
      addParams fuel db l ns = .ok out →
      (∀ q ∈ l, q.name ≠ x) →
      lookupName out x = lookupName ns x := by
  intro l
  induction l with
  | nil =>
    intro fuel ns out x h _
    cases fuel with
    | zero => simp [addParams] at h
    | succ f =>
      simp only [addParams, Except.ok.injEq] at h
      rw [← h]
  | cons q qs ih =>
    intro fuel ns out x h hx
    cases fuel with
    | zero => simp [addParams] at h
    | succ f =>
      simp only [addParams] at h
      cases hv : paramVal f db q with
      | error e => rw [hv] at h; exact absurd h (by simp)
      | ok v =>
        rw [hv] at h
        have hstep := ih f ((q.name, v) :: ns) out x h
          (fun r hr => hx r (List.mem_cons_of_mem q hr))
        rw [hstep]
        unfold lookupName
        rw [List.find?_cons_of_neg _
          (by simpa using hx q (List.mem_cons_self q qs))]

/-- Folding a param list in which the last occurrence of name `x` is
the row `q` binds `x` to `q`'s value, computed at the fuel `q`'s
position grants. -/
theorem addParams_lookup_found (db : ParamDb) :
    ∀ (l : List Param) (fuel : Nat) (ns out : List (String × PVal))
      (x : String) (q : Param),
      addParams fuel db l ns = .ok out →
      (l.filter (fun r => r.name == x)).getLast? = some q →
      ∃ (v : PVal) (fq : Nat), paramVal fq db q = .ok v ∧
        lookupName out x = some v ∧ fuel ≤ fq + l.length ∧ fq < fuel := by
  intro l
  induction l with
  | nil => intro fuel ns out x q _ hlast; simp at hlast
  | cons r rs ih =>
    intro fuel ns out x q h hlast
    cases fuel with
    | zero => simp [addParams] at h
    | succ f =>
      simp only [addParams] at h
      cases hv : paramVal f db r with
      | error e => rw [hv] at h; exact absurd h (by simp)
      | ok v =>
        rw [hv] at h
        by_cases hr : (r.name == x) = true
        · rw [List.filter_cons] at hlast
          rw [if_pos (by simpa using hr)] at hlast
          cases hfrs : rs.filter (fun s => s.name == x) with
          | nil =>
            rw [hfrs] at hlast
            simp only [List.getLast?_singleton, Option.some.injEq] at hlast
            subst hlast
            refine ⟨v, f, hv, ?_, by simp, by omega⟩
            have hnone : ∀ s ∈ rs, s.name ≠ x := by
              intro s hs
              have := List.filter_eq_nil.mp hfrs s hs
              simpa using this
            rw [addParams_lookup_none db rs f _ out x h hnone]
            unfold lookupName
            rw [List.find?_cons_of_pos]
            · rfl
            · exact hr
          | cons s ss =>
            rw [hfrs, List.getLast?_cons_cons, ← hfrs] at hlast
            obtain ⟨w, fq, hw, hlk, hb1, hb2⟩ :=
              ih f ((r.name, v) :: ns) out x q h hlast
            exact ⟨w, fq, hw, hlk, by simp only [List.length_cons]; omega,
              by omega⟩
        · rw [List.filter_cons] at hlast
          rw [if_neg (by simpa using hr)] at hlast
          obtain ⟨w, fq, hw, hlk, hb1, hb2⟩ :=
            ih f ((r.name, v) :: ns) out x q h hlast
          exact ⟨w, fq, hw, hlk, by simp only [List.length_cons]; omega,
            by omega⟩

/-- A successful fold binds exactly the folded names on top of the
initial namespace: a name bound in the output was either already bound
or belongs to some row of the list. -/
theorem addParams_lookup_cases (db : ParamDb) :
    ∀ (l : List Param) (fuel : Nat) (ns out : List (String × PVal)) (x : String),
      addParams fuel db l ns = .ok out →
      (∀ q ∈ l, q.name ≠ x) ∨ ∃ q ∈ l, q.name = x := by
  intro l fuel ns out x _
  by_cases h : ∃ q ∈ l, q.name = x
  · exact Or.inr h
  · exact Or.inl (by push_neg at h; exact h)

/-- `namesFor` on a global param ignores the fuel (past the first
unit). -/
theorem namesFor_global (db : ParamDb) (p : Param) (h1 : p.pipeline_id = none)
    (h2 : p.job_id = none) (f : Nat) :
    namesFor (f + 1) db p = .ok baseNames := by
  simp [namesFor, h1, h2]

/-- `paramVal` on a global param is fuel-stable from 2 on: its
namespace is the constant one. -/
theorem paramVal_stable_glob (db : ParamDb) (q : Param)
    (h1 : q.pipeline_id = none) (h2 : q.job_id = none) (f g : Nat) :
    paramVal (f + 2) db q = paramVal (g + 2) db q := by
  show (if q.type = "boolean" then .ok (.bool (q.value == "1"))
    else match namesFor (f + 1) db q with
      | .error e => .error e
      | .ok ns =>
        match expandSpans ns q.value.data with
        | .error e => .error e
        | .ok v =>
          if q.type = "number" then .ok (parseNumL v)
          else if q.type = "string_list" then
            .ok (.list ((splitNl v).map (fun s => .str ⟨s⟩)))
          else if q.type = "number_list" then
            .ok (.list (((splitNl v).filter
              (fun s => s.any (fun c => !c.isWhitespace))).map parseNumL))
          else .ok (.str ⟨v⟩) : Except ResErr PVal) =
    (if q.type = "boolean" then .ok (.bool (q.value == "1"))
    else match namesFor (g + 1) db q with
      | .error e => .error e
      | .ok ns =>
        match expandSpans ns q.value.data with
        | .error e => .error e
        | .ok v =>
          if q.type = "number" then .ok (parseNumL v)
          else if q.type = "string_list" then
            .ok (.list ((splitNl v).map (fun s => .str ⟨s⟩)))
          else if q.type = "number_list" then
            .ok (.list (((splitNl v).filter
              (fun s => s.any (fun c => !c.isWhitespace))).map parseNumL))
          else .ok (.str ⟨v⟩) : Except ResErr PVal)
  rw [namesFor_global db q h1 h2 f, namesFor_global db q h1 h2 g]

theorem length_globalParams_le (db : ParamDb) :
    (globalParams db).length ≤ db.params.length :=
  List.length_filter_le _ _

theorem mem_globalParams {db : ParamDb} {q : Param}
    (h : q ∈ globalParams db) : q.pipeline_id = none ∧ q.job_id = none := by
  have := List.of_mem_filter h
  simp only [Bool.and_eq_true, Option.isNone_iff_eq_none] at this
  exact this

/-- Folding the global params is fuel-stable once the fuel covers the
list plus the two units a global value needs. -/
theorem addParams_glob_stable (db : ParamDb) :
    ∀ (l : List Param), (∀ q ∈ l, q.pipeline_id = none ∧ q.job_id = none) →
      ∀ (f g : Nat) (ns : List (String × PVal)),
        l.length + 2 ≤ f → l.length + 2 ≤ g →
        addParams f db l ns = addParams g db l ns := by
  intro l
  induction l with
  | nil =>
    intro _ f g ns hf hg
    obtain ⟨f', rfl⟩ : ∃ f', f = f' + 1 := ⟨f - 1, by omega⟩
    obtain ⟨g', rfl⟩ : ∃ g', g = g' + 1 := ⟨g - 1, by omega⟩
    rfl
  | cons q qs ih =>
    intro hl f g ns hf hg
    obtain ⟨f', rfl⟩ : ∃ f', f = f' + 3 := ⟨f - 3, by simp at hf; omega⟩
    obtain ⟨g', rfl⟩ : ∃ g', g = g' + 3 := ⟨g - 3, by simp at hg; omega⟩
    show (match paramVal (f' + 2) db q with
      | .error e => .error e
      | .ok v => addParams (f' + 2) db qs ((q.name, v) :: ns) :
        Except ResErr (List (String × PVal))) =
      (match paramVal (g' + 2) db q with
      | .error e => .error e
      | .ok v => addParams (g' + 2) db qs ((q.name, v) :: ns) :
        Except ResErr (List (String × PVal)))
    have hq := hl q (List.mem_cons_self q qs)
    rw [paramVal_stable_glob db q hq.1 hq.2 f' g']
    cases paramVal (g' + 2) db q with
    | error e => rfl
    | ok v =>
      have hlen : qs.length + 2 ≤ f' + 2 ∧ qs.length + 2 ≤ g' + 2 := by
        simp only [List.length_cons] at hf hg
        omega
      exact ih (fun r hr => hl r (List.mem_cons_of_mem q hr))
        (f' + 2) (g' + 2) ((q.name, v) :: ns) hlen.1 hlen.2

/-- `namesFor` on a pipeline-scoped param: the global fold on top of
the constants. -/
theorem namesFor_pl (db : ParamDb) (p : Param) (pid : Nat)
    (hj : p.job_id = none) (hp : p.pipeline_id = some pid) (f : Nat) :
    namesFor (f + 1) db p = addParams f db (globalParams db) baseNames := by
  simp only [namesFor, hj, hp]
  show (match addParams f db (globalParams db) baseNames with
    | .error e => .error e
    | .ok ns1 => .ok ns1 : Except ResErr (List (String × PVal))) = _
  cases addParams f db (globalParams db) baseNames with
  | error e => rfl
  | ok ns1 => rfl

/-- `paramVal` on a param that is not job-scoped is fuel-stable from
`|params| + 4` on. -/
theorem paramVal_stable_pl (db : ParamDb) (q : Param) (hj : q.job_id = none)
    (f g : Nat) (hf : db.params.length + 4 ≤ f) (hg : db.params.length + 4 ≤ g) :
    paramVal f db q = paramVal g db q := by
  cases hp : q.pipeline_id with
  | none =>
    obtain ⟨f', rfl⟩ : ∃ f', f = f' + 2 := ⟨f - 2, by omega⟩
    obtain ⟨g', rfl⟩ : ∃ g', g = g' + 2 := ⟨g - 2, by omega⟩
    exact paramVal_stable_glob db q hp hj f' g'
  | some pid =>
    obtain ⟨f', rfl⟩ : ∃ f', f = f' + 2 := ⟨f - 2, by omega⟩
    obtain ⟨g', rfl⟩ : ∃ g', g = g' + 2 := ⟨g - 2, by omega⟩
    show (if q.type = "boolean" then .ok (.bool (q.value == "1"))
      else match namesFor (f' + 1) db q with
        | .error e => .error e
        | .ok ns =>
          match expandSpans ns q.value.data with
          | .error e => .error e
          | .ok v =>
            if q.type = "number" then .ok (parseNumL v)
            else if q.type = "string_list" then
              .ok (.list ((splitNl v).map (fun s => .str ⟨s⟩)))
            else if q.type = "number_list" then
              .ok (.list (((splitNl v).filter
                (fun s => s.any (fun c => !c.isWhitespace))).map parseNumL))
            else .ok (.str ⟨v⟩) : Except ResErr PVal) =
      (if q.type = "boolean" then .ok (.bool (q.value == "1"))
      else match namesFor (g' + 1) db q with
        | .error e => .error e
        | .ok ns =>
          match expandSpans ns q.value.data with
          | .error e => .error e
          | .ok v =>
            if q.type = "number" then .ok (parseNumL v)
            else if q.type = "string_list" then
              .ok (.list ((splitNl v).map (fun s => .str ⟨s⟩)))
            else if q.type = "number_list" then
              .ok (.list (((splitNl v).filter
                (fun s => s.any (fun c => !c.isWhitespace))).map parseNumL))
            else .ok (.str ⟨v⟩) : Except ResErr PVal)
    rw [namesFor_pl db q pid hj hp f', namesFor_pl db q pid hj hp g']
    rw [addParams_glob_stable db (globalParams db)
      (fun r hr => mem_globalParams hr) f' g' baseNames
      (by have := length_globalParams_le db; omega)
      (by have := length_globalParams_le db; omega)]

theorem length_insertByName (p : Param) (l : List Param) :
    (insertByName p l).length = l.length + 1 := by
  induction l with
  | nil => rfl
  | cons q qs ih =>
    unfold insertByName
    by_cases h : p.name ≤ q.name
    · rw [if_pos h]
      rfl
    · rw [if_neg h]
      simp [ih]

theorem length_sortByName (l : List Param) :
    (sortByName l).length = l.length := by
  induction l with
  | nil => rfl
  | cons q qs ih =>
    unfold sortByName
    rw [length_insertByName, ih, List.length_cons]

theorem mem_insertByName {p q : Param} {l : List Param} :
    q ∈ insertByName p l ↔ q = p ∨ q ∈ l := by
  induction l with
  | nil => simp [insertByName]
  | cons r rs ih =>
    unfold insertByName
    by_cases h : p.name ≤ r.name
    · rw [if_pos h]
      simp [List.mem_cons]
    · rw [if_neg h]
      simp only [List.mem_cons, ih]
      tauto

theorem mem_sortByName {q : Param} {l : List Param} :
    q ∈ sortByName l ↔ q ∈ l := by
  induction l with
  | nil => simp [sortByName]
  | cons r rs ih =>
    unfold sortByName
    rw [mem_insertByName]
    simp only [List.mem_cons, ih]

theorem length_pipelineParams_le (db : ParamDb) (pid : Nat) :
    (pipelineParams db pid).length ≤ db.params.length := by
  unfold pipelineParams
  rw [length_sortByName]
  exact List.length_filter_le _ _

theorem mem_pipelineParams {db : ParamDb} {pid : Nat} {q : Param}
    (h : q ∈ pipelineParams db pid) : q.pipeline_id = some pid := by
  unfold pipelineParams at h
  rw [mem_sortByName] at h
  have := List.of_mem_filter h
  simpa using this

/-- `namesFor` on a job-scoped param whose job row resolves: a global
fold, then the owning pipeline's fold on top of it. -/
theorem namesFor_job (db : ParamDb) (p : Param) (j pid : Nat)
    (hj : p.job_id = some j)
    (hfind : db.jobs.find? (fun e => e.1 == j) = some (j, pid)) (f : Nat) :
    namesFor (f + 1) db p =
      match addParams f db (globalParams db) baseNames with
      | .error e => .error e
      | .ok ns1 => addParams f db (pipelineParams db pid) ns1 := by
  simp only [namesFor, hj, Option.isSome_some, Bool.true_or, if_pos, hfind]

theorem mem_of_getLast {α : Type} (l : List α) (a : α) (h : l.getLast? = some a) :
    a ∈ l := by
  induction l with
  | nil => simp at h
  | cons b bs ih =>
    cases bs with
    | nil =>
      simp only [List.getLast?_singleton, Option.some.injEq] at h
      simp [h]
    | cons c cs =>
      rw [List.getLast?_cons_cons] at h
      exact List.mem_cons_of_mem b (ih h)

theorem name_of_mem_filter {l : List Param} {x : String} {q : Param}
    (h : q ∈ l.filter (fun r => r.name == x)) : q ∈ l ∧ q.name = x := by
  refine ⟨List.mem_of_mem_filter h, ?_⟩
  have h2 := List.of_mem_filter h
  simpa using h2

theorem mem_globalParams_params {db : ParamDb} {q : Param}
    (h : q ∈ globalParams db) : q ∈ db.params :=
  List.mem_of_mem_filter h

theorem mem_pipelineParams_params {db : ParamDb} {pid : Nat} {q : Param}
    (h : q ∈ pipelineParams db pid) : q ∈ db.params := by
  unfold pipelineParams at h
  rw [mem_sortByName] at h
  exact List.mem_of_mem_filter h

/-- A name other than the two constants is absent from the base
namespace. -/
theorem lookupName_base (x : String) (h1 : x ≠ "True") (h2 : x ≠ "False") :
    lookupName baseNames x = none := by
  unfold lookupName baseNames
  rw [List.find?_cons_of_neg _
      (by simp only [beq_iff_eq]; exact fun hh => h1 hh.symm),
    List.find?_cons_of_neg _
      (by simp only [beq_iff_eq]; exact fun hh => h2 hh.symm)]
  rfl

/-- A global param's `val` at `valFuel` equals its value at any fuel
from 2 on. -/
theorem val_eq_paramVal_glob (db : ParamDb) (q : Param)
    (h1 : q.pipeline_id = none) (h2 : q.job_id = none) (fq : Nat)
    (hfq : 2 ≤ fq) : Param.val db q = paramVal fq db q := by
  obtain ⟨f', rfl⟩ : ∃ f', fq = f' + 2 := ⟨fq - 2, by omega⟩
  show paramVal (valFuel db) db q = _
  rw [show valFuel db = (2 * db.params.length + 6) + 2 from by unfold valFuel; omega]
  exact paramVal_stable_glob db q h1 h2 _ f'

/-- A non-job-scoped param's `val` at `valFuel` equals its value at
any fuel from `|params| + 4` on. -/
theorem val_eq_paramVal_pl (db : ParamDb) (q : Param) (hj : q.job_id = none)
    (fq : Nat) (hfq : db.params.length + 4 ≤ fq) :
    Param.val db q = paramVal fq db q := by
  show paramVal (valFuel db) db q = _
  exact paramVal_stable_pl db q hj (valFuel db) fq (by unfold valFuel; omega) hfq

/-- The namespace of a pipeline-scoped param is the global fold. -/
theorem valNames_pl' (db : ParamDb) (p : Param) (pid : Nat)
    (hj : p.job_id = none) (hp : p.pipeline_id = some pid) :
    valNames db p =
      addParams (2 * db.params.length + 6) db (globalParams db) baseNames := by
  unfold valNames
  rw [show 2 * db.params.length + 7 = (2 * db.params.length + 6) + 1 from by omega]
  exact namesFor_pl db p pid hj hp _

/-- A job-scoped param's namespace splits into the global fold and the
owning pipeline's fold on top of it. -/
theorem valNames_job_split (db : ParamDb) (p : Param) (j pid : Nat)
    (ns : List (String × PVal)) (hj : p.job_id = some j)
    (hfind : db.jobs.find? (fun e => e.1 == j) = some (j, pid))
    (hns : valNames db p = .ok ns) :
    ∃ ns1, addParams (2 * db.params.length + 6) db (globalParams db) baseNames
        = .ok ns1 ∧
      addParams (2 * db.params.length + 6) db (pipelineParams db pid) ns1
        = .ok ns := by
  unfold valNames at hns
  rw [show 2 * db.params.length + 7 = (2 * db.params.length + 6) + 1 from by omega]
    at hns
  rw [namesFor_job db p j pid hj hfind] at hns
  cases hg : addParams (2 * db.params.length + 6) db (globalParams db) baseNames with
  | error e => rw [hg] at hns; exact absurd hns (by simp)
  | ok ns1 => rw [hg] at hns; exact ⟨ns1, rfl, hns⟩

/-- C10: a global-scope param (neither owner id set) expands its spans
over a namespace holding only the constants `True`/`False`; a span
naming anything else — even another global param — errors.  A
pipeline-scoped param's namespace adds exactly the global params: a
global named `x` resolves (to its own resolved value, with the last
table row of that name winning), but the params of the param's own
pipeline are not added, so a span naming `x` still errors when no
global carries that name, even if the pipeline has a param named
`x`. -/
theorem c10_global_namespace :
    (∀ (db : ParamDb) (p : Param), p.pipeline_id = none → p.job_id = none →
      valNames db p = .ok baseNames) ∧
    (∀ (db : ParamDb) (p : Param) (x : String),
      p.pipeline_id = none → p.job_id = none → p.type = "string" →
      findInliners p.value.data = [p.value.data] →
      lexSE (stripDelims p.value.data) = some [SETok.ident x] →
      p.value.data ≠ [] → x ≠ "True" → x ≠ "False" →
      Param.val db p = .error .invalidExpression) ∧
    (∀ (db : ParamDb) (p : Param) (x : String) (ns : List (String × PVal))
      (pid : Nat) (q : Param),
      p.pipeline_id = some pid → p.job_id = none → p.type = "string" →
      valNames db p = .ok ns →
      findInliners p.value.data = [p.value.data] →
      lexSE (stripDelims p.value.data) = some [SETok.ident x] →
      p.value.data ≠ [] →
      ((globalParams db).filter (fun r => r.name == x)).getLast? = some q →
      ∃ v, Param.val db q = .ok v ∧ Param.val db p = .ok (.str (pvalStr v))) ∧
    (∀ (db : ParamDb) (p : Param) (x : String) (ns : List (String × PVal))
      (pid : Nat),
      p.pipeline_id = some pid → p.job_id = none → p.type = "string" →
      valNames db p = .ok ns →
      findInliners p.value.data = [p.value.data] →
      lexSE (stripDelims p.value.data) = some [SETok.ident x] →
      p.value.data ≠ [] → x ≠ "True" → x ≠ "False" →
      (∀ q ∈ globalParams db, q.name ≠ x) →
      (∃ q ∈ db.params, q.pipeline_id = some pid ∧ q.name = x) →
      Param.val db p = .error .invalidExpression) := by
  refine ⟨?_, ?_, ?_, ?_⟩
  · intro db p h1 h2
    exact valNames_global db p h1 h2
  · intro db p x h1 h2 hty hspan htok hv hT hF
    have hfin := val_string_span db p x baseNames hty
      (valNames_global db p h1 h2) hspan htok hv
    rw [lookupName_base x hT hF] at hfin
    exact hfin
  · intro db p x ns pid q hp hj hty hns hspan htok hv hlast
    have hK := valNames_pl' db p pid hj hp
    have hg : addParams (2 * db.params.length + 6) db (globalParams db) baseNames
        = .ok ns := by rw [← hK]; exact hns
    obtain ⟨v, fq, hval, hlk, hb1, hb2⟩ :=
      addParams_lookup_found db (globalParams db) _ baseNames ns x q hg hlast
    obtain ⟨hqg, hqname⟩ := name_of_mem_filter (mem_of_getLast _ _ hlast)
    have hgl := mem_globalParams hqg
    have hfq2 : 2 ≤ fq := by
      have := length_globalParams_le db
      omega
    have hfin := val_string_span db p x ns hty hns hspan htok hv
    rw [hlk] at hfin
    refine ⟨v, ?_, hfin⟩
    rw [val_eq_paramVal_glob db q hgl.1 hgl.2 fq hfq2]
    exact hval
  · intro db p x ns pid hp hj hty hns hspan htok hv hT hF hgnone hex
    have hK := valNames_pl' db p pid hj hp
    have hg : addParams (2 * db.params.length + 6) db (globalParams db) baseNames
        = .ok ns := by rw [← hK]; exact hns
    have hlk := addParams_lookup_none db (globalParams db) _ baseNames ns x hg hgnone
    have hfin := val_string_span db p x ns hty hns hspan htok hv
    rw [hlk, lookupName_base x hT hF] at hfin
    exact hfin

/-- C10 witness: a global param referencing `y` errors although a
global `y` exists; a pipeline-scoped param sees the global `x`; with
only the pipeline's own `x` present the reference still errors. -/
theorem c10_global_namespace_witness :
    Param.val ⟨[⟨"y", "string", none, none, "7"⟩], []⟩
      ⟨"p", "string", none, none, "{% y %}"⟩ = .error .invalidExpression ∧
    (∃ v, Param.val ⟨[⟨"x", "string", none, none, "G"⟩,
        ⟨"p", "string", some 5, none, "{% x %}"⟩], []⟩
        ⟨"x", "string", none, none, "G"⟩ = .ok v ∧
      Param.val ⟨[⟨"x", "string", none, none, "G"⟩,
        ⟨"p", "string", some 5, none, "{% x %}"⟩], []⟩
        ⟨"p", "string", some 5, none, "{% x %}"⟩ = .ok (.str (pvalStr v))) ∧
    Param.val ⟨[⟨"x", "string", some 5, none, "P"⟩], []⟩
      ⟨"p", "string", some 5, none, "{% x %}"⟩ = .error .invalidExpression := by
  obtain ⟨h1, h2, h3, h4⟩ := c10_global_namespace
  refine ⟨?_, ?_, ?_⟩
  · exact h2 ⟨[⟨"y", "string", none, none, "7"⟩], []⟩
      ⟨"p", "string", none, none, "{% y %}"⟩ "y" rfl rfl rfl rfl rfl
      (by decide) (by decide) (by decide)
  · exact h3 ⟨[⟨"x", "string", none, none, "G"⟩,
      ⟨"p", "string", some 5, none, "{% x %}"⟩], []⟩
      ⟨"p", "string", some 5, none, "{% x %}"⟩ "x"
      [("x", .str "G"), ("True", .bool true), ("False", .bool false)] 5
      ⟨"x", "string", none, none, "G"⟩ rfl rfl rfl rfl rfl rfl (by decide) rfl
  · refine h4 ⟨[⟨"x", "string", some 5, none, "P"⟩], []⟩
      ⟨"p", "string", some 5, none, "{% x %}"⟩ "x"
      [("True", .bool true), ("False", .bool false)] 5
      rfl rfl rfl rfl rfl rfl (by decide) (by decide) (by decide) ?_ ?_
    · intro q hq
      have hemp : globalParams ⟨[⟨"x", "string", some 5, none, "P"⟩], []⟩
          = [] := rfl
      rw [hemp] at hq
      simp at hq
    · exact ⟨⟨"x", "string", some 5, none, "P"⟩, by simp, rfl, rfl⟩

/-- C6: a job-scoped param's spans evaluate over the namespace
constants → global params → owning pipeline's params, the later stage
shadowing the earlier and the last same-named row of a stage winning;
`\x7b% x %\x7d` resolves to the pipeline-scoped `x` when one exists,
else to the global `x`, and errors when neither exists — params
belonging to other jobs or other pipelines never contribute a
binding. -/
theorem c6_scope_precedence (db : ParamDb) (p : Param) (x : String)
    (ns : List (String × PVal)) (j pid : Nat)
    (hj : p.job_id = some j)
    (hfind : db.jobs.find? (fun e => e.1 == j) = some (j, pid))
    (hty : p.type = "string")
    (hns : valNames db p = .ok ns)
    (hspan : findInliners p.value.data = [p.value.data])
    (htok : lexSE (stripDelims p.value.data) = some [SETok.ident x])
    (hv : p.value.data ≠ [])
    (hdisj : ∀ r ∈ db.params, r.pipeline_id.isSome = true → r.job_id = none) :
    (∀ q, ((pipelineParams db pid).filter (fun r => r.name == x)).getLast?
        = some q →
      ∃ v, Param.val db q = .ok v ∧ Param.val db p = .ok (.str (pvalStr v))) ∧
    ((∀ q ∈ pipelineParams db pid, q.name ≠ x) →
      ∀ q, ((globalParams db).filter (fun r => r.name == x)).getLast? = some q →
      ∃ v, Param.val db q = .ok v ∧ Param.val db p = .ok (.str (pvalStr v))) ∧
    (x ≠ "True" → x ≠ "False" →
      (∀ q ∈ db.params, q.name = x →
        (q.pipeline_id = none → ¬q.job_id = none) ∧
        (∀ pid0, q.pipeline_id = some pid0 → pid0 ≠ pid)) →
      Param.val db p = .error .invalidExpression) := by
  obtain ⟨ns1, hg, hpl⟩ := valNames_job_split db p j pid ns hj hfind hns
  refine ⟨?_, ?_, ?_⟩
  · intro q hlast
    obtain ⟨v, fq, hval, hlk, hb1, hb2⟩ :=
      addParams_lookup_found db (pipelineParams db pid) _ ns1 ns x q hpl hlast
    obtain ⟨hqpl, hqname⟩ := name_of_mem_filter (mem_of_getLast _ _ hlast)
    have hqdb : q ∈ db.params := mem_pipelineParams_params hqpl
    have hqpid := mem_pipelineParams hqpl
    have hqj : q.job_id = none := hdisj q hqdb (by rw [hqpid]; rfl)
    have hfqb : db.params.length + 4 ≤ fq := by
      have := length_pipelineParams_le db pid
      omega
    have hfin := val_string_span db p x ns hty hns hspan htok hv
    rw [hlk] at hfin
    refine ⟨v, ?_, hfin⟩
    rw [val_eq_paramVal_pl db q hqj fq hfqb]
    exact hval
  · intro hplnone q hlast
    have hlk1 : lookupName ns x = lookupName ns1 x :=
      addParams_lookup_none db (pipelineParams db pid) _ ns1 ns x hpl hplnone
    obtain ⟨v, fq, hval, hlk, hb1, hb2⟩ :=
      addParams_lookup_found db (globalParams db) _ baseNames ns1 x q hg hlast
    obtain ⟨hqg, hqname⟩ := name_of_mem_filter (mem_of_getLast _ _ hlast)
    have hgl := mem_globalParams hqg
    have hfq2 : 2 ≤ fq := by
      have := length_globalParams_le db
      omega
    have hfin := val_string_span db p x ns hty hns hspan htok hv
    rw [hlk1, hlk] at hfin
    refine ⟨v, ?_, hfin⟩
    rw [val_eq_paramVal_glob db q hgl.1 hgl.2 fq hfq2]
    exact hval
  · intro hT hF hinv
    have hplnone : ∀ q ∈ pipelineParams db pid, q.name ≠ x := by
      intro q hq hname
      have hqdb : q ∈ db.params := mem_pipelineParams_params hq
      have hqpid := mem_pipelineParams hq
      exact (hinv q hqdb hname).2 pid hqpid rfl
    have hgnone : ∀ q ∈ globalParams db, q.name ≠ x := by
      intro q hq hname
      have hqg := mem_globalParams hq
      exact (hinv q (mem_globalParams_params hq) hname).1 hqg.1 hqg.2
    have hlk1 := addParams_lookup_none db (pipelineParams db pid) _ ns1 ns x
      hpl hplnone
    have hlk2 := addParams_lookup_none db (globalParams db) _ baseNames ns1 x
      hg hgnone
    have hfin := val_string_span db p x ns hty hns hspan htok hv
    rw [hlk1, hlk2, lookupName_base x hT hF] at hfin
    exact hfin

/-- C6 witness: with a global `x = "G"` and a pipeline-scoped
`x = "P"`, a job-scoped `\x7b% x %\x7d` resolves to the pipeline's
value. -/
theorem c6_scope_precedence_witness :
    ∃ v, Param.val ⟨[⟨"x", "string", none, none, "G"⟩,
        ⟨"x", "string", some 5, none, "P"⟩,
        ⟨"q", "string", none, some 9, "{% x %}"⟩], [(9, 5)]⟩
        ⟨"x", "string", some 5, none, "P"⟩ = .ok v ∧
      Param.val ⟨[⟨"x", "string", none, none, "G"⟩,
        ⟨"x", "string", some 5, none, "P"⟩,
        ⟨"q", "string", none, some 9, "{% x %}"⟩], [(9, 5)]⟩
        ⟨"q", "string", none, some 9, "{% x %}"⟩
        = .ok (.str (pvalStr v)) := by
  exact (c6_scope_precedence
    ⟨[⟨"x", "string", none, none, "G"⟩, ⟨"x", "string", some 5, none, "P"⟩,
      ⟨"q", "string", none, some 9, "{% x %}"⟩], [(9, 5)]⟩
    ⟨"q", "string", none, some 9, "{% x %}"⟩ "x"
    [("x", .str "P"), ("x", .str "G"), ("True", .bool true),
      ("False", .bool false)] 9 5
    rfl rfl rfl rfl rfl rfl (by decide) (by decide)).1
    ⟨"x", "string", some 5, none, "P"⟩ rfl

/-! ## Claim C5: the liveness invariant of the pipeline status -/

theorem jobIdsOf_initSt (cfg : Config) : jobIdsOf (initSt cfg) = cfg.jobIds := by
  unfold jobIdsOf initSt
  rw [List.map_map]
  exact List.map_id cfg.jobIds

theorem lookupJob_mem {st : St} {k : Nat} {s : JobState}
    (h : lookupJob st k = some s) : ∃ e ∈ st.jobs, e.1 = k ∧ e.2 = s := by
  unfold lookupJob at h
  cases hf : st.jobs.find? (fun e => e.1 == k) with
  | none => rw [hf] at h; simp at h
  | some e0 =>
    rw [hf] at h
    simp only [Option.map_some', Option.some.injEq] at h
    exact ⟨e0, List.mem_of_find?_eq_some hf,
      by simpa using List.find?_some hf, h⟩

/-- The branches `get_ready` can take: a refusal leaving the state
unchanged, or the transition to `waiting` after a successful param
resolution. -/
theorem getReady_cases (cfg : Config) (st : St) (j : Nat) :
    getReady cfg st j = (st, false) ∨
    (∃ js, lookupJob st j = some js ∧
      js.status ∈ ["idle", "succeeded", "failed"] ∧ resolveOk cfg j = true ∧
      getReady cfg st j = (setStatus st j "waiting", true)) := by
  cases hl : lookupJob st j with
  | none =>
    left
    unfold getReady
    rw [hl]
  | some js =>
    have hunfold : getReady cfg st j =
        if js.status ∈ ["idle", "succeeded", "failed"] then
          if resolveOk cfg j then (setStatus st j "waiting", true) else (st, false)
        else (st, false) := by
      unfold getReady
      rw [hl]
    by_cases hs : js.status ∈ ["idle", "succeeded", "failed"]
    · by_cases hr : resolveOk cfg j = true
      · exact Or.inr ⟨js, rfl, hs, hr, by rw [hunfold, if_pos hs, if_pos hr]⟩
      · left
        rw [hunfold, if_pos hs, if_neg hr]
    · left
      rw [hunfold, if_neg hs]

/-- Setting a resolvable job `waiting` keeps the waiting-jobs-resolve
invariant. -/
theorem GoodW_setWaiting {cfg : Config} {st : St} {j : Nat}
    (hr : resolveOk cfg j = true) (hg : GoodW cfg st) :
    GoodW cfg (setStatus st j "waiting") := by
  intro e' he' hw
  obtain ⟨e, he, heq⟩ := mem_updJob he'
  by_cases hej : (e.1 == j) = true
  · rw [heq, if_pos hej]
    rw [show e.1 = j from by simpa using hej]
    exact hr
  · rw [heq, if_neg hej] at hw ⊢
    exact hg e he hw

theorem getReady_inv (cfg : Config) (st : St) (j : Nat) (hg : GoodW cfg st) :
    (getReady cfg st j).1.pstatus = st.pstatus ∧
    jobIdsOf (getReady cfg st j).1 = jobIdsOf st ∧
    GoodW cfg (getReady cfg st j).1 := by
  rcases getReady_cases cfg st j with h | ⟨js, _, _, hr, h⟩
  · rw [h]
    exact ⟨rfl, rfl, hg⟩
  · rw [h]
    exact ⟨rfl, jobIdsOf_updJob st j _, GoodW_setWaiting hr hg⟩

theorem getReadyLoop_cons (cfg : Config) (st : St) (j : Nat) (js : List Nat) :
    getReadyLoop cfg st (j :: js) =
      match getReady cfg st j with
      | (st', true) => getReadyLoop cfg st' js
      | (st', false) => (st', false) := rfl

theorem getReadyLoop_inv (cfg : Config) :
    ∀ (l : List Nat) (st : St), GoodW cfg st →
      (getReadyLoop cfg st l).1.pstatus = st.pstatus ∧
      jobIdsOf (getReadyLoop cfg st l).1 = jobIdsOf st ∧
      GoodW cfg (getReadyLoop cfg st l).1 := by
  intro l
  induction l with
  | nil =>
    intro st hg
    exact ⟨rfl, rfl, hg⟩
  | cons j js ih =>
    intro st hg
    obtain ⟨h1, h2, h3⟩ := getReady_inv cfg st j hg
    rw [getReadyLoop_cons]
    cases hgr : getReady cfg st j with
    | mk st' b =>
      rw [hgr] at h1 h2 h3
      cases b with
      | false => exact ⟨h1, h2, h3⟩
      | true =>
        obtain ⟨g1, g2, g3⟩ := ih st' h3
        exact ⟨g1.trans h1, g2.trans h2, g3⟩

/-- When the `get_ready` loop returns `True`, every processed job is
`waiting` and every untouched row was already in the table. -/
theorem getReadyLoop_waiting (cfg : Config) :
    ∀ (l : List Nat) (st st1 : St), getReadyLoop cfg st l = (st1, true) →
      ∀ e ∈ st1.jobs,
        (e.1 ∈ l ∧ e.2.status = "waiting") ∨ (e.1 ∉ l ∧ e ∈ st.jobs) := by
  intro l
  induction l with
  | nil =>
    intro st st1 h e he
    right
    refine ⟨List.not_mem_nil e.1, ?_⟩
    have h2 : ((st, true) : St × Bool) = (st1, true) := h
    injection h2 with ha _
    rw [← ha] at he
    exact he
  | cons j js ih =>
    intro st st1 h e he
    rw [getReadyLoop_cons] at h
    cases hgr : getReady cfg st j with
    | mk st' b =>
      rw [hgr] at h
      cases b with
      | false => exact absurd h (by simp)
      | true =>
        have hstep := ih st' st1 h e he
        rcases getReady_cases cfg st j with hcase | ⟨js0, hl, hs, hr, hcase⟩
        · rw [hgr] at hcase
          exact absurd hcase (by simp)
        · rw [hgr] at hcase
          have hst' : st' = setStatus st j "waiting" := by
            injection hcase with ha _
          rcases hstep with ⟨hmem, hw⟩ | ⟨hnmem, hmem⟩
          · exact Or.inl ⟨List.mem_cons_of_mem j hmem, hw⟩
          · rw [hst'] at hmem
            obtain ⟨e0, he0, heq⟩ := mem_updJob hmem
            by_cases hej : (e0.1 == j) = true
            · left
              rw [heq, if_pos hej]
              refine ⟨?_, rfl⟩
              rw [show e0.1 = j from by simpa using hej]
              exact List.mem_cons_self j js
            · right
              rw [heq, if_neg hej] at hnmem ⊢
              refine ⟨?_, he0⟩
              simp only [List.mem_cons, not_or]
              exact ⟨by simpa using hej, hnmem⟩

theorem stopJob_inv (cfg : Config) (st : St) (j : Nat) (hg : GoodW cfg st) :
    (stopJob st j).1.pstatus = st.pstatus ∧
    jobIdsOf (stopJob st j).1 = jobIdsOf st ∧
    GoodW cfg (stopJob st j).1 := by
  cases hl : lookupJob st j with
  | none =>
    have heq : stopJob st j = (st, false) := by
      unfold stopJob
      rw [hl]
    rw [heq]
    exact ⟨rfl, rfl, hg⟩
  | some js =>
    have hunfold : stopJob st j =
        if js.status = "waiting" then (setStatus st j "failed", true)
        else if js.status = "running" then (setStatus st j "stopping", true)
        else (st, false) := by
      unfold stopJob
      rw [hl]
    by_cases hw : js.status = "waiting"
    · rw [hunfold, if_pos hw]
      exact ⟨rfl, jobIdsOf_updJob st j _,
        GoodW_updJob (fun s => Or.inr (by simp)) hg⟩
    · rw [hunfold, if_neg hw]
      by_cases hr : js.status = "running"
      · rw [if_pos hr]
        exact ⟨rfl, jobIdsOf_updJob st j _,
          GoodW_updJob (fun s => Or.inr (by simp)) hg⟩
      · rw [if_neg hr]
        exact ⟨rfl, rfl, hg⟩

theorem stopAll_inv (cfg : Config) :
    ∀ (l : List Nat) (st : St), GoodW cfg st →
      (stopAll st l).pstatus = st.pstatus ∧
      jobIdsOf (stopAll st l) = jobIdsOf st ∧
      GoodW cfg (stopAll st l) := by
  intro l
  induction l with
  | nil =>
    intro st hg
    exact ⟨rfl, rfl, hg⟩
  | cons j js ih =>
    intro st hg
    obtain ⟨h1, h2, h3⟩ := stopJob_inv cfg st j hg
    obtain ⟨g1, g2, g3⟩ := ih (stopJob st j).1 h3
    exact ⟨g1.trans h1, g2.trans h2, g3⟩

/-- During `Pipeline.start`'s start loop every job is `waiting` or
`running`: no predecessor is terminal, so no edge hard-fails and no
cascade runs. -/
def Calm (st : St) : Prop :=
  ∀ e ∈ st.jobs, e.2.status = "waiting" ∨ e.2.status = "running"

theorem Calm_updJob {st : St} {j : Nat} {f : JobState → JobState}
    (hf : ∀ s, (f s).status = s.status ∨ (f s).status = "running" ∨
      (f s).status = "waiting")
    (h : Calm st) : Calm (updJob st j f) := by
  intro e' he'
  obtain ⟨e, he, heq⟩ := mem_updJob he'
  by_cases hej : (e.1 == j) = true
  · rw [heq, if_pos hej]
    show (f e.2).status = "waiting" ∨ (f e.2).status = "running"
    rcases hf e.2 with hsame | hr | hw
    · rw [hsame]
      exact h e he
    · exact Or.inr hr
    · exact Or.inl hw
  · rw [heq, if_neg hej]
    exact h e he

theorem InvP_updJob {st : St} {j : Nat} {f : JobState → JobState}
    (hf : ∀ s, (f s).status = s.status) (h : InvP st) : InvP (updJob st j f) := by
  intro hp
  have hp' : st.pstatus = "running" ∨ st.pstatus = "stopping" := hp
  obtain ⟨e, he, h1, h2⟩ := h hp'
  refine ⟨if e.1 == j then (e.1, f e.2) else e, List.mem_map.mpr ⟨e, he, rfl⟩, ?_⟩
  by_cases hej : (e.1 == j) = true
  · rw [if_pos hej]
    show (f e.2).status ≠ "succeeded" ∧ (f e.2).status ≠ "failed"
    rw [hf e.2]
    exact ⟨h1, h2⟩
  · rw [if_neg hej]
    exact ⟨h1, h2⟩

theorem jobRun_calm (cfg : Config) (st : St) (j : Nat) (h : Calm st) :
    Calm (jobRun cfg st j).state ∧ (jobRun cfg st j).state.pstatus = st.pstatus := by
  unfold jobRun
  set st1 := updJob st j (fun js =>
    { js with enqueued := 0, succeededW := 0, failedW := 0, status := "running" })
    with hst1
  have h1 : Calm st1 := Calm_updJob (fun s => Or.inr (Or.inl rfl)) h
  by_cases hres : resolveOk cfg j = true
  · rw [if_pos hres]
    simp only [Out.state]
    constructor
    · cases hl : lookupJob st1 j with
      | none =>
        rw [enqueue_fst_none hl]
        exact h1
      | some js =>
        rw [enqueue_fst_some hl]
        by_cases hr : js.status = "running"
        · rw [if_pos hr]
          exact Calm_updJob (fun s => Or.inl rfl) h1
        · rw [if_neg hr]
          exact h1
    · cases hl : lookupJob st1 j with
      | none =>
        rw [enqueue_fst_none hl]
        rfl
      | some js =>
        rw [enqueue_fst_some hl]
        by_cases hr : js.status = "running"
        · rw [if_pos hr]
          rfl
        · rw [if_neg hr]
          rfl
  · rw [if_neg hres]
    exact ⟨h1, rfl⟩

/-- Under a calm predecessor, a `success`/`fail`/`whatever` edge never
hard-fails: the loop either blocks or moves on to the next edge. -/
theorem condLoop_cons_blocked (fuel : Nat) (cfg : Config) (st : St) (j : Nat)
    (c : SCond) (rest : List SCond) (ps : String)
    (hp : (lookupJob st c.preceding_job_id).map (fun s : JobState => s.status)
      = some ps)
    (hns : ps ≠ "succeeded") (hnf : ps ≠ "failed") :
    condLoop (fuel + 1) cfg st j (c :: rest) = .ok st false ∨
    condLoop (fuel + 1) cfg st j (c :: rest) = condLoop fuel cfg st j rest := by
  have hred : condLoop (fuel + 1) cfg st j (c :: rest) =
      (if c.condition = "success" then
        if ps ≠ "succeeded" then
          if ps = "failed" then
            match sdjF fuel cfg (setStatus st j "failed") j with
            | .exn st' => (Out.exn st' : Out Bool)
            | .ok st' _ => .ok st' false
          else .ok st false
        else condLoop fuel cfg st j rest
      else if c.condition = "fail" then
        if ps ≠ "failed" then
          if ps = "succeeded" then
            match sdjF fuel cfg (setStatus st j "failed") j with
            | .exn st' => .exn st'
            | .ok st' _ => .ok st' false
          else .ok st false
        else condLoop fuel cfg st j rest
      else if c.condition = "whatever" then
        if ps ∉ ["succeeded", "failed"] then .ok st false
        else condLoop fuel cfg st j rest
      else condLoop fuel cfg st j rest) := by
    rw [condLoop_cons, hp]
  rw [hred]
  by_cases hc1 : c.condition = "success"
  · rw [if_pos hc1, if_pos hns, if_neg hnf]
    exact Or.inl rfl
  · rw [if_neg hc1]
    by_cases hc2 : c.condition = "fail"
    · rw [if_pos hc2, if_pos hnf, if_neg hns]
      exact Or.inl rfl
    · rw [if_neg hc2]
      by_cases hc3 : c.condition = "whatever"
      · rw [if_pos hc3, if_pos (show ps ∉ ["succeeded", "failed"] from by
          simp [hns, hnf])]
        exact Or.inl rfl
      · rw [if_neg hc3]
        exact Or.inr rfl

/-- The start cascade preserves calm states and never touches the
pipeline status in them. -/
theorem calm_cascade : ∀ fuel : Nat,
    (∀ cfg st j, Calm st → Calm (startF fuel cfg st j).state ∧
      (startF fuel cfg st j).state.pstatus = st.pstatus) ∧
    (∀ cfg st j conds, Calm st → Calm (condLoop fuel cfg st j conds).state ∧
      (condLoop fuel cfg st j conds).state.pstatus = st.pstatus) := by
  intro fuel
  induction fuel with
  | zero =>
    exact ⟨fun cfg st j h => ⟨h, rfl⟩, fun cfg st j conds h => ⟨h, rfl⟩⟩
  | succ fuel ih =>
    obtain ⟨ihA, ihB⟩ := ih
    have hB : ∀ cfg st j conds, Calm st →
        Calm (condLoop (fuel + 1) cfg st j conds).state ∧
        (condLoop (fuel + 1) cfg st j conds).state.pstatus = st.pstatus := by
      intro cfg st j conds h
      cases conds with
      | nil =>
        rw [condLoop_nil]
        obtain ⟨hc, hp⟩ := jobRun_calm cfg st j h
        cases hrr : jobRun cfg st j with
        | exn st' =>
          rw [hrr] at hc hp
          simp only [Out.state] at hc hp
          exact ⟨hc, hp⟩
        | ok st' v =>
          rw [hrr] at hc hp
          simp only [Out.state] at hc hp
          exact ⟨hc, hp⟩
      | cons c rest =>
        cases hp : (lookupJob st c.preceding_job_id).map
            (fun s : JobState => s.status) with
        | none =>
          have heq : condLoop (fuel + 1) cfg st j (c :: rest) = .exn st := by
            rw [condLoop_cons, hp]
          rw [heq]
          exact ⟨h, rfl⟩
        | some ps =>
          have hps : ps = "waiting" ∨ ps = "running" := by
            obtain ⟨s, hls, hsp⟩ := Option.map_eq_some'.mp hp
            obtain ⟨e, he, _, he2⟩ := lookupJob_mem hls
            rw [← hsp, ← he2]
            exact h e he
          have hns : ps ≠ "succeeded" := by
            rcases hps with h' | h' <;> simp [h']
          have hnf : ps ≠ "failed" := by
            rcases hps with h' | h' <;> simp [h']
          rcases condLoop_cons_blocked fuel cfg st j c rest ps hp hns hnf
            with heq | heq
          · rw [heq]
            exact ⟨h, rfl⟩
          · rw [heq]
            exact ihB cfg st j rest h
    have hA : ∀ cfg st j, Calm st → Calm (startF (fuel + 1) cfg st j).state ∧
        (startF (fuel + 1) cfg st j).state.pstatus = st.pstatus := by
      intro cfg st j h
      cases hlk : lookupJob st j with
      | none =>
        have heq : startF (fuel + 1) cfg st j = .ok st false := by
          rw [startF_succ, hlk]
        rw [heq]
        exact ⟨h, rfl⟩
      | some js =>
        by_cases hw : js.status = "waiting"
        · have heq : startF (fuel + 1) cfg st j =
              condLoop fuel cfg st j (cfg.conds.filter (fun c => c.job_id == j)) := by
            rw [startF_succ, hlk]
            show (if js.status = "waiting" then condLoop fuel cfg st j
                (cfg.conds.filter (fun c => c.job_id == j))
              else (Out.ok st false : Out Bool)) = _
            rw [if_pos hw]
          rw [heq]
          exact ihB cfg st j _ h
        · have heq : startF (fuel + 1) cfg st j = .ok st false := by
            rw [startF_succ, hlk]
            show (if js.status = "waiting" then condLoop fuel cfg st j
                (cfg.conds.filter (fun c => c.job_id == j))
              else (Out.ok st false : Out Bool)) = _
            rw [if_neg hw]
          rw [heq]
          exact ⟨h, rfl⟩
    exact ⟨hA, hB⟩

theorem startLoop_cons (cfg : Config) (st : St) (j : Nat) (js : List Nat) :
    startLoop cfg st (j :: js) =
      match startJob cfg st j with
      | .exn st' => .exn st'
      | .ok st' _ => startLoop cfg st' js := rfl

theorem startLoop_calm (cfg : Config) :
    ∀ (l : List Nat) (st : St), Calm st →
      Calm (startLoop cfg st l).state ∧
      (startLoop cfg st l).state.pstatus = st.pstatus := by
  intro l
  induction l with
  | nil =>
    intro st h
    exact ⟨h, rfl⟩
  | cons j js ih =>
    intro st h
    have h1 := ((calm_cascade (cascadeFuel cfg st)).1) cfg st j h
    rw [startLoop_cons]
    cases hs : startJob cfg st j with
    | exn st' =>
      have heq : startF (cascadeFuel cfg st) cfg st j = .exn st' := hs
      rw [heq] at h1
      simp only [Out.state] at h1
      exact h1
    | ok st' v =>
      have heq : startF (cascadeFuel cfg st) cfg st j = .ok st' v := hs
      rw [heq] at h1
      simp only [Out.state] at h1
      obtain ⟨g1, g2⟩ := ih st' h1.1
      exact ⟨g1, g2.trans h1.2⟩

theorem startLoop_safe (cfg : Config) :
    ∀ (l : List Nat) (st : St), WFC cfg st → GoodW cfg st →
      (∀ s, startLoop cfg st l ≠ .exn s) ∧
      GoodW cfg (startLoop cfg st l).state ∧
      Frozen st (startLoop cfg st l).state := by
  intro l
  induction l with
  | nil =>
    intro st _ hg
    exact ⟨fun s h => Out.noConfusion h, hg, Frozen.refl st⟩
  | cons j js ih =>
    intro st hwfc hg
    obtain ⟨hne, hgw⟩ := ((cascade_safe (cascadeFuel cfg st)).1) cfg st j hwfc hg
    have hfr := ((cascade_frozen (cascadeFuel cfg st)).1) cfg st j
    rw [startLoop_cons]
    cases hs : startJob cfg st j with
    | exn st' =>
      exact absurd (show startF (cascadeFuel cfg st) cfg st j = .exn st' from hs)
        (hne st')
    | ok st' v =>
      have heq : startF (cascadeFuel cfg st) cfg st j = .ok st' v := hs
      rw [heq] at hgw hfr
      simp only [Out.state] at hgw hfr
      have hwfc' : WFC cfg st' := WFC_of_ids hwfc hfr.2.2.1
      obtain ⟨g1, g2, g3⟩ := ih st' hwfc' hgw
      exact ⟨g1, g2, Frozen.trans hfr g3⟩

/-- Every reachable state keeps the job-table key set, the
waiting-implies-resolvable invariant, and the amended liveness
invariant: in `running`/`stopping` some job is outside
`succeeded`/`failed`. -/
theorem reach_inv (cfg : Config) (hwfc : WFC cfg (initSt cfg)) :
    ∀ st, Reach cfg st →
      jobIdsOf st = cfg.jobIds ∧ GoodW cfg st ∧ InvP st := by
  intro st h
  induction h with
  | init =>
    refine ⟨jobIdsOf_initSt cfg, ?_, ?_⟩
    · intro e he hw
      obtain ⟨j0, _, heq⟩ := List.mem_map.mp he
      rw [← heq] at hw
      simp at hw
    · intro hp
      exfalso
      have hp' : ("idle" : String) = "running" ∨ ("idle" : String) = "stopping" := hp
      rcases hp' with h' | h' <;> simp at h'
  | @pjobFinished st h ih =>
    obtain ⟨ihids, ihg, _⟩ := ih
    obtain ⟨hj, _, _⟩ := jobFinished_frozen cfg st
    refine ⟨?_, GoodW_of_jobs_eq ihg hj, jobFinished_inv cfg st⟩
    have h1 : jobIdsOf (jobFinished cfg st).1 = jobIdsOf st := by
      unfold jobIdsOf
      rw [hj]
    rw [h1]
    exact ihids
  | @pstop st h ih =>
    obtain ⟨ihids, ihg, ihinv⟩ := ih
    by_cases hnr : st.pstatus ≠ "running"
    · have heq : (pipelineStop cfg st).1 = st := by
        unfold pipelineStop
        rw [if_pos hnr]
      rw [heq]
      exact ⟨ihids, ihg, ihinv⟩
    · set st1 := stopAll st (st.jobs.map (·.1)) with hst1
      obtain ⟨sp1, si1, sg1⟩ := stopAll_inv cfg (st.jobs.map (·.1)) st ihg
      by_cases hany : st1.jobs.any
          (fun e => e.2.status ∉ ["succeeded", "failed"]) = true
      · have heq : (pipelineStop cfg st).1 = { st1 with pstatus := "stopping" } := by
          unfold pipelineStop
          rw [if_neg hnr]
          show (if st1.jobs.any (fun e => e.2.status ∉ ["succeeded", "failed"]) then
              ({ st1 with pstatus := "stopping" }, true)
            else (finishP cfg st1, true)).1 = _
          rw [if_pos hany]
        rw [heq]
        refine ⟨?_, GoodW_of_jobs_eq sg1 rfl, ?_⟩
        · have h1 : jobIdsOf ({ st1 with pstatus := "stopping" } : St)
              = jobIdsOf st1 := rfl
          rw [h1, si1]
          exact ihids
        · intro _
          obtain ⟨e, he, hestat⟩ := List.any_eq_true.mp hany
          refine ⟨e, he, ?_⟩
          have h2 := of_decide_eq_true hestat
          simp only [List.mem_cons, List.not_mem_nil, or_false, not_or] at h2
          exact ⟨h2.1, h2.2⟩
      · have heq : (pipelineStop cfg st).1 = finishP cfg st1 := by
          unfold pipelineStop
          rw [if_neg hnr]
          show (if st1.jobs.any (fun e => e.2.status ∉ ["succeeded", "failed"]) then
              ({ st1 with pstatus := "stopping" }, true)
            else (finishP cfg st1, true)).1 = _
          rw [if_neg hany]
        rw [heq]
        refine ⟨?_, GoodW_of_jobs_eq sg1 rfl, ?_⟩
        · have h1 : jobIdsOf (finishP cfg st1) = jobIdsOf st1 := rfl
          rw [h1, si1]
          exact ihids
        · intro hp
          exfalso
          unfold finishP at hp
          by_cases hf : ((st1.jobs.filter (fun e =>
              !(cfg.conds.any (fun c => c.preceding_job_id == e.1)))).any
              (fun e => e.2.status == "failed")) = true <;>
            simp [hf] at hp <;> rcases hp with hp | hp <;> simp at hp
  | @psingle st j hm h ih =>
    obtain ⟨ihids, ihg, ihinv⟩ := ih
    by_cases hgp : st.pstatus ∉ ["idle", "finished", "failed", "succeeded"]
    · have heq : startSingleJob cfg st j = .ok st false := by
        unfold startSingleJob
        rw [if_pos hgp]
      rw [heq]
      exact ⟨ihids, ihg, ihinv⟩
    · obtain ⟨sj, hsj⟩ : ∃ s, lookupJob st j = some s := by
        rw [← mem_jobIdsOf, ihids]
        exact hm
      set st1 := updJob st j (fun js =>
        { js with enqueued := 0, succeededW := 0, failedW := 0, status := "running" })
        with hst1
      by_cases hres : resolveOk cfg j = true
      · have hrun : jobRun cfg st j = .ok (enqueue st1 j).1 () := jobRun_ok hres
        have heq : startSingleJob cfg st j =
            .ok { (enqueue st1 j).1 with pstatus := "running" } true := by
          unfold startSingleJob
          rw [if_neg hgp]
          show (match jobRun cfg st j with
            | .exn st' => (Out.exn st' : Out Bool)
            | .ok st' _ => .ok { st' with pstatus := "running" } true) = _
          rw [hrun]
        rw [heq]
        have hl1 : lookupJob st1 j = some
            { sj with enqueued := 0, succeededW := 0, failedW := 0, status := "running" } := by
          rw [hst1, lookupJob_updJob, if_pos rfl, hsj]
          rfl
        have henq : (enqueue st1 j).1 =
            updJob st1 j (fun k => { k with enqueued := k.enqueued + 1 }) := by
          rw [enqueue_fst_some hl1]
          rw [if_pos rfl]
        refine ⟨?_, ?_, ?_⟩
        · show jobIdsOf (enqueue st1 j).1 = cfg.jobIds
          rw [henq, jobIdsOf_updJob, hst1, jobIdsOf_updJob]
          exact ihids
        · have g1 : GoodW cfg st1 := by
            rw [hst1]
            exact GoodW_updJob (fun s => Or.inr (by simp)) ihg
          have g2 : GoodW cfg (enqueue st1 j).1 := by
            rw [henq]
            exact GoodW_updJob (fun s => Or.inl rfl) g1
          exact GoodW_of_jobs_eq g2 rfl
        · intro _
          have hl2 : lookupJob (enqueue st1 j).1 j = some
              { sj with enqueued := 0 + 1, succeededW := 0, failedW := 0, status := "running" } := by
            rw [henq, lookupJob_updJob, if_pos rfl, hl1]
            rfl
          obtain ⟨e, he, _, he2⟩ := lookupJob_mem hl2
          refine ⟨e, he, ?_⟩
          rw [he2]
          exact ⟨by simp, by simp⟩
      · have hrun : jobRun cfg st j = .exn st1 := by
          unfold jobRun
          rw [if_neg hres]
        have heq : startSingleJob cfg st j = .exn st1 := by
          unfold startSingleJob
          rw [if_neg hgp]
          show (match jobRun cfg st j with
            | .exn st' => (Out.exn st' : Out Bool)
            | .ok st' _ => .ok { st' with pstatus := "running" } true) = _
          rw [hrun]
        rw [heq]
        refine ⟨?_, ?_, ?_⟩
        · show jobIdsOf st1 = cfg.jobIds
          rw [hst1, jobIdsOf_updJob]
          exact ihids
        · show GoodW cfg st1
          rw [hst1]
          exact GoodW_updJob (fun s => Or.inr (by simp)) ihg
        · intro hp
          exfalso
          have hmem : st.pstatus ∈ ["idle", "finished", "failed", "succeeded"] :=
            not_not.mp hgp
          have hp' : st.pstatus = "running" ∨ st.pstatus = "stopping" := hp
          rcases hp' with hp' | hp' <;> rw [hp'] at hmem <;> simp at hmem
  | @pstart st h ih =>
    obtain ⟨ihids, ihg, ihinv⟩ := ih
    by_cases hg1 : st.pstatus ∉ ["idle", "finished", "failed", "succeeded"]
    · have heq : pipelineStart cfg st = .ok st false := by
        unfold pipelineStart
        rw [if_pos hg1]
      rw [heq]
      exact ⟨ihids, ihg, ihinv⟩
    · set ids := st.jobs.map (·.1) with hids
      by_cases hg2 : ids.length < 1
      · have heq : pipelineStart cfg st = .ok st false := by
          unfold pipelineStart
          rw [if_neg hg1]
          show (if ids.length < 1 then (Out.ok st false : Out Bool)
            else if !(st.jobs.all
                (fun e => e.2.status ∈ ["idle", "succeeded", "failed"])) then
              .ok st false
            else match getReadyLoop cfg st ids with
              | (st1, false) => .ok st1 false
              | (st1, true) =>
                match startLoop cfg st1 ids with
                | .exn st2 => .exn st2
                | .ok st2 _ => .ok { st2 with pstatus := "running" } true) = _
          rw [if_pos hg2]
        rw [heq]
        exact ⟨ihids, ihg, ihinv⟩
      · by_cases hg3 : (!(st.jobs.all
            (fun e => e.2.status ∈ ["idle", "succeeded", "failed"]))) = true
        · have heq : pipelineStart cfg st = .ok st false := by
            unfold pipelineStart
            rw [if_neg hg1]
            show (if ids.length < 1 then (Out.ok st false : Out Bool)
              else if !(st.jobs.all
                  (fun e => e.2.status ∈ ["idle", "succeeded", "failed"])) then
                .ok st false
              else match getReadyLoop cfg st ids with
                | (st1, false) => .ok st1 false
                | (st1, true) =>
                  match startLoop cfg st1 ids with
                  | .exn st2 => .exn st2
                  | .ok st2 _ => .ok { st2 with pstatus := "running" } true) = _
            rw [if_neg hg2, if_pos hg3]
          rw [heq]
          exact ⟨ihids, ihg, ihinv⟩
        · cases hgr : getReadyLoop cfg st ids with
          | mk st1 b =>
            obtain ⟨p1, i1, g1⟩ := getReadyLoop_inv cfg ids st ihg
            rw [hgr] at p1 i1 g1
            have hp1 : st1.pstatus = st.pstatus := p1
            have hi1 : jobIdsOf st1 = jobIdsOf st := i1
            have hg1' : GoodW cfg st1 := g1
            cases b with
            | false =>
              have heq : pipelineStart cfg st = .ok st1 false := by
                unfold pipelineStart
                rw [if_neg hg1]
                show (if ids.length < 1 then (Out.ok st false : Out Bool)
                  else if !(st.jobs.all
                      (fun e => e.2.status ∈ ["idle", "succeeded", "failed"])) then
                    .ok st false
                  else match getReadyLoop cfg st ids with
                    | (s1, false) => .ok s1 false
                    | (s1, true) =>
                      match startLoop cfg s1 ids with
                      | .exn st2 => .exn st2
                      | .ok st2 _ => .ok { st2 with pstatus := "running" } true) = _
                rw [if_neg hg2, if_neg hg3, hgr]
              rw [heq]
              refine ⟨?_, hg1', ?_⟩
              · show jobIdsOf st1 = cfg.jobIds
                rw [hi1]
                exact ihids
              · intro hp
                exfalso
                have hmem : st.pstatus ∈ ["idle", "finished", "failed", "succeeded"] :=
                  not_not.mp hg1
                have hp' : st1.pstatus = "running" ∨ st1.pstatus = "stopping" := hp
                rw [hp1] at hp'
                rcases hp' with hp' | hp' <;> rw [hp'] at hmem <;> simp at hmem
            | true =>
              have hwfc_st : WFC cfg st :=
                WFC_of_ids hwfc (by rw [jobIdsOf_initSt]; exact ihids)
              have hwfc1 : WFC cfg st1 := WFC_of_ids hwfc_st hi1
              have hcalm1 : Calm st1 := by
                intro e he
                rcases getReadyLoop_waiting cfg ids st st1 hgr e he with
                  ⟨_, hw⟩ | ⟨hnm, hmem⟩
                · exact Or.inl hw
                · exact absurd (show e.1 ∈ ids from by
                    rw [hids]; exact List.mem_map.mpr ⟨e, hmem, rfl⟩) hnm
              obtain ⟨hne, hgw2, hfr2⟩ := startLoop_safe cfg ids st1 hwfc1 hg1'
              obtain ⟨hcalm2, hps2⟩ := startLoop_calm cfg ids st1 hcalm1
              cases hsl : startLoop cfg st1 ids with
              | exn st2 => exact absurd hsl (hne st2)
              | ok st2 v =>
                have heq : pipelineStart cfg st =
                    .ok { st2 with pstatus := "running" } true := by
                  unfold pipelineStart
                  rw [if_neg hg1]
                  show (if ids.length < 1 then (Out.ok st false : Out Bool)
                    else if !(st.jobs.all
                        (fun e => e.2.status ∈ ["idle", "succeeded", "failed"])) then
                      .ok st false
                    else match getReadyLoop cfg st ids with
                      | (s1, false) => .ok s1 false
                      | (s1, true) =>
                        match startLoop cfg s1 ids with
                        | .exn s2 => .exn s2
                        | .ok s2 _ => .ok { s2 with pstatus := "running" } true) = _
                  rw [if_neg hg2, if_neg hg3, hgr]
                  show (match startLoop cfg st1 ids with
                    | .exn s2 => (Out.exn s2 : Out Bool)
                    | .ok s2 _ => .ok { s2 with pstatus := "running" } true) = _
                  rw [hsl]
                rw [heq]
                have hid2 : jobIdsOf st2 = jobIdsOf st1 := by
                  have h2 := hfr2.2.2.1
                  rw [hsl] at h2
                  exact h2
                refine ⟨?_, ?_, ?_⟩
                · show jobIdsOf st2 = cfg.jobIds
                  rw [hid2, hi1]
                  exact ihids
                · have hg2' : GoodW cfg st2 := by
                    rw [hsl] at hgw2
                    exact hgw2
                  exact GoodW_of_jobs_eq hg2' rfl
                · intro _
                  have hcalm2' : Calm st2 := by
                    rw [hsl] at hcalm2
                    exact hcalm2
                  have hlen : 1 ≤ st2.jobs.length := by
                    have e1 : (jobIdsOf st2).length = (jobIdsOf st).length := by
                      rw [hid2, hi1]
                    have e2 : st2.jobs.length = st.jobs.length := by
                      simpa [jobIdsOf] using e1
                    have e3 : ¬(ids.length < 1) := hg2
                    rw [hids, List.length_map] at e3
                    omega
                  cases hjobs : st2.jobs with
                  | nil =>
                    rw [hjobs] at hlen
                    simp at hlen
                  | cons e es =>
                    have he : e ∈ st2.jobs := by
                      rw [hjobs]
                      exact List.mem_cons_self e es
                    refine ⟨e, List.mem_cons_self e es, ?_⟩
                    rcases hcalm2' e he with hw | hr
                    · rw [hw]
                      exact ⟨by simp, by simp⟩
                    · rw [hr]
                      exact ⟨by simp, by simp⟩
  | @wsucc st j hm h ih =>
    obtain ⟨ihids, ihg, ihinv⟩ := ih
    cases hlk : lookupJob st j with
    | none =>
      have heq : workerSucceeded cfg st j = .exn st := by
        unfold workerSucceeded
        rw [hlk]
      rw [heq]
      exact ⟨ihids, ihg, ihinv⟩
    | some js =>
      set st1 := updJob st j (fun k => { k with succeededW := k.succeededW + 1 })
        with hst1
      set st2 := setStatus st1 j (if js.failedW < 1 then "succeeded" else "failed")
        with hst2
      have heq1 : workerSucceeded cfg st j =
          (if js.succeededW + 1 + js.failedW ≥ js.enqueued then
            sdjF (cascadeFuel cfg st2) cfg st2 j
          else .ok st1 ()) := by
        unfold workerSucceeded
        rw [hlk]
      by_cases hth : js.succeededW + 1 + js.failedW ≥ js.enqueued
      · rw [if_pos hth] at heq1
        have hid2 : jobIdsOf st2 = jobIdsOf st := by
          rw [hst2]
          unfold setStatus
          rw [jobIdsOf_updJob, hst1, jobIdsOf_updJob]
        have hg2 : GoodW cfg st2 := by
          rw [hst2]
          unfold setStatus
          refine GoodW_updJob (fun s => Or.inr ?_) ?_
          · by_cases hf : js.failedW < 1 <;> simp [hf]
          · rw [hst1]
            exact GoodW_updJob (fun s => Or.inl rfl) ihg
        have hwfc2 : WFC cfg st2 :=
          WFC_of_ids (WFC_of_ids hwfc (by rw [jobIdsOf_initSt]; exact ihids)) hid2
        obtain ⟨k, hk⟩ : ∃ k, cascadeFuel cfg st2 = k + 1 :=
          ⟨cascadeFuel cfg st2 - 1, by have := cascadeFuel_pos cfg st2; omega⟩
        obtain ⟨st', hs, hfr, _, _, hinv, hgw⟩ := sdjF_ok_spec k hwfc2 hg2
        rw [heq1, hk, hs]
        refine ⟨?_, hgw, hinv⟩
        show jobIdsOf st' = cfg.jobIds
        rw [hfr.2.2.1, hid2]
        exact ihids
      · rw [if_neg hth] at heq1
        rw [heq1]
        refine ⟨?_, ?_, ?_⟩
        · show jobIdsOf st1 = cfg.jobIds
          rw [hst1, jobIdsOf_updJob]
          exact ihids
        · show GoodW cfg st1
          rw [hst1]
          exact GoodW_updJob (fun s => Or.inl rfl) ihg
        · show InvP st1
          rw [hst1]
          exact InvP_updJob (fun s => rfl) ihinv
  | @wfail st j hm h ih =>
    obtain ⟨ihids, ihg, ihinv⟩ := ih
    cases hlk : lookupJob st j with
    | none =>
      have heq : workerFailed cfg st j = .exn st := by
        unfold workerFailed
        rw [hlk]
      rw [heq]
      exact ⟨ihids, ihg, ihinv⟩
    | some js =>
      set st1 := updJob st j (fun k => { k with failedW := k.failedW + 1 })
        with hst1
      set st2 := setStatus st1 j "failed" with hst2
      have heq1 : workerFailed cfg st j =
          (if js.succeededW + (js.failedW + 1) ≥ js.enqueued then
            sdjF (cascadeFuel cfg st2) cfg st2 j
          else .ok st1 ()) := by
        unfold workerFailed
        rw [hlk]
      by_cases hth : js.succeededW + (js.failedW + 1) ≥ js.enqueued
      · rw [if_pos hth] at heq1
        have hid2 : jobIdsOf st2 = jobIdsOf st := by
          rw [hst2]
          unfold setStatus
          rw [jobIdsOf_updJob, hst1, jobIdsOf_updJob]
        have hg2 : GoodW cfg st2 := by
          rw [hst2]
          unfold setStatus
          refine GoodW_updJob (fun s => Or.inr (by simp)) ?_
          rw [hst1]
          exact GoodW_updJob (fun s => Or.inl rfl) ihg
        have hwfc2 : WFC cfg st2 :=
          WFC_of_ids (WFC_of_ids hwfc (by rw [jobIdsOf_initSt]; exact ihids)) hid2
        obtain ⟨k, hk⟩ : ∃ k, cascadeFuel cfg st2 = k + 1 :=
          ⟨cascadeFuel cfg st2 - 1, by have := cascadeFuel_pos cfg st2; omega⟩
        obtain ⟨st', hs, hfr, _, _, hinv, hgw⟩ := sdjF_ok_spec k hwfc2 hg2
        rw [heq1, hk, hs]
        refine ⟨?_, hgw, hinv⟩
        show jobIdsOf st' = cfg.jobIds
        rw [hfr.2.2.1, hid2]
        exact ihids
      · rw [if_neg hth] at heq1
        rw [heq1]
        refine ⟨?_, ?_, ?_⟩
        · show jobIdsOf st1 = cfg.jobIds
          rw [hst1, jobIdsOf_updJob]
          exact ihids
        · show GoodW cfg st1
          rw [hst1]
          exact GoodW_updJob (fun s => Or.inl rfl) ihg
        · show InvP st1
          rw [hst1]
          exact InvP_updJob (fun s => rfl) ihinv

def c5CfgA : Config :=
  ⟨1, [1, 2], [], [⟨"bad", "string", none, some 2, "{% nosuch %}"⟩]⟩

def c5StA : St := (pipelineStart c5CfgA (initSt c5CfgA)).state

def c5CfgB : Config :=
  ⟨1, [1, 2, 3], [], [⟨"bad", "string", none, some 3, "{% nosuch %}"⟩]⟩

def c5StB : St :=
  (pipelineStop c5CfgB (workerSucceeded c5CfgB
    (startSingleJob c5CfgB
      (pipelineStart c5CfgB (initSt c5CfgB)).state 1).state 1).state).1

/-- C5 counterexample: the claimed biconditional fails in both
directions on reachable states.  (A) An aborted `Pipeline.start` (one
job's param fails to resolve after another was already set `waiting`)
leaves the pipeline `idle` with a `waiting` job: a non-terminal job
with the pipeline outside running/stopping.  (B) `start` aborted the
same way, then `start_single_job` on job 1, its worker succeeding,
then `stop`: job 2 (waiting) is stopped to `failed`, job 3 is still
`idle`, so `stop` sets the pipeline to `stopping` although every job
is in succeeded/failed/idle. -/
theorem c5_counterexample :
    (Reach c5CfgA c5StA ∧ c5StA.pstatus ∉ ["running", "stopping"] ∧
      ∃ e ∈ c5StA.jobs, e.2.status ∉ ["succeeded", "failed", "idle"]) ∧
    (Reach c5CfgB c5StB ∧ c5StB.pstatus ∈ ["running", "stopping"] ∧
      ∀ e ∈ c5StB.jobs, e.2.status ∈ ["succeeded", "failed", "idle"]) := by
  refine ⟨⟨Reach.pstart Reach.init, by decide, by decide⟩,
    ⟨?_, by decide, by decide⟩⟩
  exact Reach.pstop (Reach.wsucc (by decide)
    (Reach.psingle (by decide) (Reach.pstart Reach.init)))

/-- C5 amended: under referential integrity of the edges, every state
reachable from the initial pipeline satisfies the one-directional
invariant: while the pipeline status is `running` or `stopping`, some
owned job is outside `succeeded`/`failed` (`idle` jobs count as live —
they block finalization of `stop`'s successor states — so the claimed
terminal set `\x7bsucceeded, failed, idle\x7d` and the claimed
converse direction are both wrong).  `Pipeline.start` on a pipeline
with zero jobs returns `False` and changes nothing. -/
theorem c5_amended (cfg : Config) (hwfc : WFC cfg (initSt cfg)) :
    (∀ st, Reach cfg st →
      st.pstatus = "running" ∨ st.pstatus = "stopping" →
      ∃ e ∈ st.jobs, e.2.status ≠ "succeeded" ∧ e.2.status ≠ "failed") ∧
    (∀ st, st.jobs = [] → pipelineStart cfg st = .ok st false) := by
  constructor
  · intro st h hp
    exact (reach_inv cfg hwfc st h).2.2 hp
  · intro st h
    by_cases hg1 : st.pstatus ∉ ["idle", "finished", "failed", "succeeded"]
    · unfold pipelineStart
      rw [if_pos hg1]
    · unfold pipelineStart
      rw [if_neg hg1]
      show (if (st.jobs.map (·.1)).length < 1 then (Out.ok st false : Out Bool)
        else if !(st.jobs.all
            (fun e => e.2.status ∈ ["idle", "succeeded", "failed"])) then
          .ok st false
        else match getReadyLoop cfg st (st.jobs.map (·.1)) with
          | (st1, false) => .ok st1 false
          | (st1, true) =>
            match startLoop cfg st1 (st.jobs.map (·.1)) with
            | .exn st2 => .exn st2
            | .ok st2 _ => .ok { st2 with pstatus := "running" } true) = _
      rw [if_pos (show (st.jobs.map (·.1)).length < 1 from by rw [h]; decide)]

/-- C5 witness: a started one-job pipeline is `running` with its job
live, and `start` on an empty job table is a no-op returning
`False`. -/
theorem c5_amended_witness :
    (∃ e ∈ (pipelineStart ⟨1, [1], [], []⟩ (initSt ⟨1, [1], [], []⟩)).state.jobs,
      e.2.status ≠ "succeeded" ∧ e.2.status ≠ "failed") ∧
    pipelineStart ⟨1, [1], [], []⟩ ⟨"idle", [], [], 0, 0⟩ =
      .ok ⟨"idle", [], [], 0, 0⟩ false := by
  obtain ⟨h1, h2⟩ := c5_amended ⟨1, [1], [], []⟩
    (by intro c hc; exact absurd hc (List.not_mem_nil c))
  exact ⟨h1 _ (Reach.pstart Reach.init) (Or.inl rfl),
    h2 ⟨"idle", [], [], 0, 0⟩ rfl⟩

end Crmint
